import Mathlib

/-!
Verification of the Android build helper scripts of the tast-tests repository
(`src/android/build/util/`): `find.py`, `javac.py`, `process_resources.py`,
`signer.py` and `clang.py`.

The scripts are shallowly embedded:

* A filesystem is a finite ordered tree of named entries (`Node`, `Entries`).
  An entry is a regular file, a directory, or some other kind of entry
  (socket, broken symlink, ...), mirroring the distinction made by
  `pathlib.Path.is_file`.  Paths are lists of name components (`FPath`),
  taken relative to the modelled root, which plays the role of the process's
  working directory.
* External tools (`javac`, `d8`, `zip`, `aapt2`, `apksigner`, `clang++`) are
  an oracle `World`: a returncode and a filesystem effect for every argv
  vector handed to `subprocess.run`.
* Python exceptions are values of `PyErr`; a raised exception aborts the
  rest of a script, which is modelled by explicit propagation.
* Python stdlib helpers used by the scripts (`os.makedirs`, `shutil.copy`,
  `os.path.split`, `os.path.join`, `fnmatch` patterns, `pathlib.Path.rglob`)
  are modelled at the level of detail the scripts exercise; each model's
  doc comment states its reading of the stdlib behaviour.
-/

/-- Components of a filesystem path, relative to the modelled root
(the working directory). -/
abbrev FPath := List String

mutual
/-- One filesystem entry: a regular file, a non-file non-directory entry
(socket, broken symlink, ...), or a directory with an ordered list of
named children.  The child order models the order `os.scandir` reports. -/
inductive Node where
  | file : Node
  | other : Node
  | dir : Entries → Node
deriving DecidableEq, Repr
/-- Ordered named children of a directory. -/
inductive Entries where
  | nil : Entries
  | cons (name : String) (child : Node) (rest : Entries) : Entries
deriving DecidableEq, Repr
end

/-- Look up a child by name (first match, in scandir order). -/
def findE : Entries → String → Option Node
  | .nil, _ => none
  | .cons n c rest, name => if n = name then some c else findE rest name

/-- Replace the first child of the given name, or append a new one. -/
def setE : Entries → String → Node → Entries
  | .nil, name, m => .cons name m .nil
  | .cons n c rest, name, m =>
      if n = name then .cons n m rest else .cons n c (setE rest name m)

/-- Does some child carry this name? -/
def hasName : Entries → String → Bool
  | .nil, _ => false
  | .cons n _ rest, name => n = name || hasName rest name

mutual
/-- Well-formedness: sibling names are pairwise distinct, recursively.
Real directories cannot hold two children of the same name. -/
def nodeWf : Node → Bool
  | .file => true
  | .other => true
  | .dir es => entriesWf es
/-- Well-formedness of a child list. -/
def entriesWf : Entries → Bool
  | .nil => true
  | .cons name c rest => !hasName rest name && nodeWf c && entriesWf rest
end

/-- The node reached from `n` by following the path components. -/
def nodeAt : Node → FPath → Option Node
  | n, [] => some n
  | .dir es, c :: rest =>
      match findE es c with
      | some m => nodeAt m rest
      | none => none
  | _, _ :: _ => none

/-- Models `Path.is_file` / `os.path.isfile`: a regular file sits at `p`. -/
def isFile (fs : Entries) (p : FPath) : Bool :=
  match nodeAt (.dir fs) p with
  | some .file => true
  | _ => false

/-- Models `os.path.isdir`: a directory sits at `p`. -/
def isDir (fs : Entries) (p : FPath) : Bool :=
  match nodeAt (.dir fs) p with
  | some (.dir _) => true
  | _ => false

/-- Models `os.path.exists`: some entry sits at `p` (an `other` entry
stands for things that exist but are neither regular files nor
directories, e.g. sockets). -/
def pathExists (fs : Entries) (p : FPath) : Bool :=
  (nodeAt (.dir fs) p).isSome

/-- The Python exceptions the scripts can raise. -/
inductive PyErr where
  | fileNotFound : PyErr
  | fileExists : PyErr
  | isADirectory : PyErr
  | notADirectory : PyErr
  | calledProcess (returncode : Int) : PyErr
  | exception (msg : String) : PyErr
  | shutilError (dstPath : String) : PyErr
  | attributeError (attr : String) : PyErr
deriving DecidableEq, Repr

/-- Models `os.makedirs(path, exist_ok=True)` on a path given by its
components: each missing component is created as a directory (parents
included); an existing directory at any component is fine (`exist_ok`
suppresses `FileExistsError` only when the path is a directory), while an
existing non-directory raises `FileExistsError`. -/
def mkdirsE : Entries → FPath → Except PyErr Entries
  | es, [] => .ok es
  | es, c :: rest =>
      match findE es c with
      | some (.dir cs) =>
          match mkdirsE cs rest with
          | .ok cs2 => .ok (setE es c (.dir cs2))
          | .error e => .error e
      | some _ => .error .fileExists
      | none =>
          match mkdirsE .nil rest with
          | .ok cs2 => .ok (setE es c (.dir cs2))
          | .error e => .error e

/-- Create or overwrite a regular file at `p` (the write half of
`shutil.copy`): every ancestor must be an existing directory
(`FileNotFoundError` / `NotADirectoryError` otherwise) and the target may
not be a directory (`IsADirectoryError`). -/
def setFileAt : Entries → FPath → Except PyErr Entries
  | _, [] => .error .isADirectory
  | es, [name] =>
      match findE es name with
      | some (.dir _) => .error .isADirectory
      | _ => .ok (setE es name .file)
  | es, c :: rest =>
      match findE es c with
      | some (.dir cs) =>
          match setFileAt cs rest with
          | .ok cs2 => .ok (setE es c (.dir cs2))
          | .error e => .error e
      | some _ => .error .notADirectory
      | none => .error .fileNotFound

/-- Models `shutil.copy(src, dst)`: the source must be a regular file
(`FileNotFoundError` otherwise); when `dst` is an existing directory the
file is copied into it under the source's basename, else to `dst` itself.
File contents are not tracked, only existence and kind. -/
def copyFile (fs : Entries) (src dst : FPath) : Except PyErr Entries :=
  if isFile fs src then
    setFileAt fs (if isDir fs dst then dst ++ [src.getLastD ""] else dst)
  else .error .fileNotFound

/-- Fuel-indexed glob matching; the fuel only serves structural
termination and `pattern.length + name.length + 1` always suffices. -/
def globMatchF : Nat → List Char → List Char → Bool
  | 0, _, _ => false
  | _ + 1, [], cs => cs.isEmpty
  | fuel + 1, '*' :: ps, [] => globMatchF fuel ps []
  | fuel + 1, '*' :: ps, c :: cs =>
      globMatchF fuel ps (c :: cs) || globMatchF fuel ('*' :: ps) cs
  | _ + 1, '?' :: _, [] => false
  | fuel + 1, '?' :: ps, _ :: cs => globMatchF fuel ps cs
  | _ + 1, _ :: _, [] => false
  | fuel + 1, p :: ps, c :: cs => (p == c) && globMatchF fuel ps cs

/-- Glob matching of a whole name against a whole pattern: `*` matches any
run of characters (dotfiles included, as in `fnmatch`), `?` any single
character, anything else itself. -/
def globMatch (ps cs : List Char) : Bool :=
  globMatchF (ps.length + cs.length + 1) ps cs

/-- Models `fnmatch`-style matching of an entry name against a pattern, as
used by `pathlib`'s glob machinery.  The repository only ever passes the
patterns `*.class`, `*.dex`, `*.flat` and `R.java`; character classes
(`[...]`) are not modelled. -/
def fnmatch (name pat : String) : Bool :=
  globMatch pat.toList name.toList

mutual
/-- Models `Path.rglob(pattern)` below one node, for a single-component
pattern: `**/pattern` yields, for every directory of the subtree in
depth-first preorder, that directory's children whose names match, in
child order.  Results are paths relative to the node. -/
def rglobNode (pat : String) : Node → List FPath
  | .file => []
  | .other => []
  | .dir es => rglobHere pat es ++ rglobSub pat es
/-- Matching children of one directory, in order. -/
def rglobHere (pat : String) : Entries → List FPath
  | .nil => []
  | .cons name _ rest =>
      (if fnmatch name pat then [[name]] else []) ++ rglobHere pat rest
/-- Recursive matches inside each child, in child order. -/
def rglobSub (pat : String) : Entries → List FPath
  | .nil => []
  | .cons name c rest =>
      (rglobNode pat c).map (fun r => name :: r) ++ rglobSub pat rest
end

/-- Models `base.rglob(pattern)`: empty when `base` is missing or not a
directory (pathlib's selectors return nothing there), else the subtree
matches prefixed with `base`. -/
def rglob (fs : Entries) (base : FPath) (pat : String) : List FPath :=
  match nodeAt (.dir fs) base with
  | some n => (rglobNode pat n).map (fun r => base ++ r)
  | none => []

namespace Find

/-- The dynamically-typed `paths` argument of `find_files`: either a single
path or a list of paths (`if not isinstance(paths, list): paths = [paths]`). -/
inductive PathsArg where
  | single : FPath → PathsArg
  | many : List FPath → PathsArg

/-- Models `find.find_files(paths, pattern)`: wrap a non-list argument into
a one-element list, then for each path in order, `rglob` the pattern under
it, keep the regular files, and yield each as an absolute path
(`file.absolute()` prefixes the working directory `cwd`; the given paths
are modelled as relative to it). -/
def find_files (cwd : FPath) (fs : Entries) (paths : PathsArg) (pat : String) :
    List FPath :=
  let ps :=
    match paths with
    | .single p => [p]
    | .many l => l
  ps.flatMap
    (fun p => ((rglob fs p pat).filter (fun q => isFile fs q)).map
      (fun q => cwd ++ q))

end Find

/-- The external world seen through `subprocess.run`: every argv vector has
a returncode and a filesystem effect.  Nothing constrains the effect, so
non-deterministic tools are covered by quantifying over worlds. -/
structure World where
  rc : List String → Int
  eff : List String → Entries → Entries

/-- Result of one pipeline stage.  `pre` is a ghost field recording the
filesystem state at the moment the stage's `subprocess.run` call was made
(or the state at abort when the call was never reached); `trace` lists the
argv vectors handed to `subprocess.run`, in order; `ret` is that call's
returncode when the call returned a `CompletedProcess`. -/
structure StageOut where
  fs : Entries
  pre : Entries
  trace : List (List String)
  err : Option PyErr
  ret : Option Int

/-- Render path components the way `str(pathlib.Path(...))` appears in an
argv list. -/
def renderP (p : FPath) : String := String.intercalate "/" p

/-- Split a character list at `/` into components (helper for the
string-path functions of `signer.py`, whose options are plain strings). -/
def splitSlash : List Char → List Char → List String
  | acc, [] => [String.mk acc.reverse]
  | acc, '/' :: rest => String.mk acc.reverse :: splitSlash [] rest
  | acc, c :: rest => splitSlash (c :: acc) rest

/-- Path components of a path string: empty components (leading, trailing
or doubled slashes) carry no meaning and are dropped; the result is taken
relative to the modelled root. -/
def strToComps (s : String) : FPath :=
  (splitSlash [] s.toList).filter (fun c => c ≠ "")

/-- Models `os.path.split`: the part up to the last slash (stripped of
trailing slashes unless it is all slashes) and the part after it. -/
def osPathSplit (s : String) : String × String :=
  let cs := s.toList
  let revName := cs.reverse.takeWhile (fun c => c ≠ '/')
  let tail := String.mk revName.reverse
  let headCs := cs.take (cs.length - revName.length)
  let head :=
    if headCs ≠ [] ∧ headCs.all (fun c => c = '/') then String.mk headCs
    else String.mk ((headCs.reverse.dropWhile (fun c => c = '/')).reverse)
  (head, tail)

/-- Models `os.path.join(a, b)` for two components. -/
def osPathJoin (a b : String) : String :=
  if b.toList.head? = some '/' then b
  else if a = "" ∨ a.toList.getLast? = some '/' then a ++ b
  else a ++ "/" ++ b

/-- Models `os.makedirs(s, exist_ok=True)` on a path string: the empty
string raises `FileNotFoundError` (as CPython's `mkdir('')` does), any
other string creates its components as needed. -/
def osMakedirsStr (fs : Entries) (s : String) : Except PyErr Entries :=
  if s = "" then .error .fileNotFound
  else mkdirsE fs (strToComps s)

namespace Javac

/-- The argv vector `javac.py`'s `javac` builds. -/
def javacCmd (sources : List FPath) (sdk outDir : FPath) : List String :=
  ["javac", "-XDskipDuplicateBridges=true", "-XDstringConcat=inline",
   "-source", "1.8", "-target", "1.8", "-Xlint", "-d", renderP outDir,
   "-classpath", renderP sdk] ++ sources.map renderP

/-- Models `javac.py`'s `javac`: `os.makedirs(output_dir, exist_ok=True)`,
then `subprocess.run(cmd, check=True)` (a non-zero returncode raises
`CalledProcessError`). -/
def javac (w : World) (sources : List FPath) (sdk outDir : FPath)
    (fs : Entries) : StageOut :=
  match mkdirsE fs outDir with
  | .error e => { fs := fs, pre := fs, trace := [], err := some e, ret := none }
  | .ok fs1 =>
      let cmd := javacCmd sources sdk outDir
      { fs := w.eff cmd fs1, pre := fs1, trace := [cmd],
        err := if w.rc cmd = 0 then none else some (.calledProcess (w.rc cmd)),
        ret := some (w.rc cmd) }

/-- The argv vector `javac.py`'s `d8` builds
(`android_sdk_build_tools/'d8'` is a `pathlib` join). -/
def d8Cmd (classes : List FPath) (sdk outDir bt : FPath) : List String :=
  [renderP (bt ++ ["d8"]), "--lib", renderP sdk, "--output", renderP outDir]
    ++ classes.map renderP

/-- Models `javac.py`'s `d8`: `os.makedirs(output_dir, exist_ok=True)`,
then a checked `subprocess.run`. -/
def d8 (w : World) (classes : List FPath) (sdk outDir bt : FPath)
    (fs : Entries) : StageOut :=
  match mkdirsE fs outDir with
  | .error e => { fs := fs, pre := fs, trace := [], err := some e, ret := none }
  | .ok fs1 =>
      let cmd := d8Cmd classes sdk outDir bt
      { fs := w.eff cmd fs1, pre := fs1, trace := [cmd],
        err := if w.rc cmd = 0 then none else some (.calledProcess (w.rc cmd)),
        ret := some (w.rc cmd) }

/-- The argv vector `javac.py`'s `add_dexes` builds. -/
def addDexesCmd (output : FPath) (dexes : List FPath) : List String :=
  ["zip", "-uj", renderP output] ++ dexes.map renderP

/-- Models `javac.py`'s `add_dexes`: `os.makedirs(output.parent,
exist_ok=True)` (for a single-component path `Path.parent` is `.`, i.e.
the existing working directory, hence `dropLast`), `shutil.copy` of the
resource APK to `output`, then a checked `zip -uj`. -/
def add_dexes (w : World) (resourceApk : FPath) (dexes : List FPath)
    (output : FPath) (fs : Entries) : StageOut :=
  match mkdirsE fs output.dropLast with
  | .error e => { fs := fs, pre := fs, trace := [], err := some e, ret := none }
  | .ok fs1 =>
      match copyFile fs1 resourceApk output with
      | .error e =>
          { fs := fs1, pre := fs1, trace := [], err := some e, ret := none }
      | .ok fs2 =>
          let cmd := addDexesCmd output dexes
          { fs := w.eff cmd fs2, pre := fs2, trace := [cmd],
            err := if w.rc cmd = 0 then none
                   else some (.calledProcess (w.rc cmd)),
            ret := some (w.rc cmd) }

/-- Options of `javac.py` (all paths; a valid invocation provides each). -/
structure Opts where
  androidSdkPlatform : FPath
  output : FPath
  dexDir : FPath
  classDir : FPath
  androidSdkBuildTools : FPath
  resourceApk : FPath
  files : List FPath

/-- Outcome of a whole script run: final filesystem, the ordered
subprocess trace, and the exception that escaped `main`, if any. -/
structure MainOut where
  fs : Entries
  trace : List (List String)
  err : Option PyErr

/-- Models `javac.py`'s `main`: run `javac` into `--class-dir`, find the
`*.class` files under it, run `d8` on them into `--dex-dir`, find the
`*.dex` files under it, and package them with `add_dexes`.  Any raised
exception aborts the remaining stages. -/
def main (w : World) (cwd : FPath) (o : Opts) (fs : Entries) : MainOut :=
  let s1 := javac w o.files o.androidSdkPlatform o.classDir fs
  match s1.err with
  | some e => { fs := s1.fs, trace := s1.trace, err := some e }
  | none =>
      let files := Find.find_files cwd s1.fs (.single o.classDir) "*.class"
      let s2 := d8 w files o.androidSdkPlatform o.dexDir
        o.androidSdkBuildTools s1.fs
      match s2.err with
      | some e => { fs := s2.fs, trace := s1.trace ++ s2.trace, err := some e }
      | none =>
          let dexes := Find.find_files cwd s2.fs (.single o.dexDir) "*.dex"
          let s3 := add_dexes w o.resourceApk dexes o.output s2.fs
          { fs := s3.fs, trace := s1.trace ++ s2.trace ++ s3.trace,
            err := s3.err }

end Javac

namespace ProcRes

/-- Python truthiness of an optional-string option (`None` and the empty
string are falsy). -/
def pyTruthyStr : Option String → Bool
  | none => false
  | some s => s ≠ ""

/-- Conditional flag pair of `aapt2 link` (`if value: cmd += [flag, value]`). -/
def optFlag (flag : String) (v : Option String) : List String :=
  match v with
  | some s => if s ≠ "" then [flag, s] else []
  | none => []

/-- The argv vector `process_resources.py`'s `compile_resources` builds. -/
def compileCmd (outDir : FPath) (resources : List FPath) (bt : FPath) :
    List String :=
  [renderP (bt ++ ["aapt2"]), "compile", "-o", renderP outDir]
    ++ resources.map renderP

/-- Models `compile_resources`: `os.makedirs(output_dir, exist_ok=True)`,
then a checked `aapt2 compile`. -/
def compile_resources (w : World) (outDir : FPath) (resources : List FPath)
    (bt : FPath) (fs : Entries) : StageOut :=
  match mkdirsE fs outDir with
  | .error e => { fs := fs, pre := fs, trace := [], err := some e, ret := none }
  | .ok fs1 =>
      let cmd := compileCmd outDir resources bt
      { fs := w.eff cmd fs1, pre := fs1, trace := [cmd],
        err := if w.rc cmd = 0 then none else some (.calledProcess (w.rc cmd)),
        ret := some (w.rc cmd) }

/-- The argv vector `process_resources.py`'s `link_resources` builds. -/
def linkCmd (files : List FPath) (outputApk rjavaDir sdk manifest : FPath)
    (tgt mn rn : Option String) (bt : FPath) : List String :=
  [renderP (bt ++ ["aapt2"]), "link", "-o", renderP outputApk,
   "--java", renderP rjavaDir, "--manifest", renderP manifest,
   "-I", renderP sdk, "--no-static-lib-packages", "--auto-add-overlay"]
    ++ optFlag "--target-sdk-version" tgt
    ++ optFlag "--min-sdk-version" mn
    ++ optFlag "--rename-manifest-package" rn
    ++ files.map renderP

/-- Models `link_resources`: it performs no filesystem operation of its
own (in particular no `os.makedirs`), it only runs a checked `aapt2 link`. -/
def link_resources (w : World) (files : List FPath)
    (outputApk rjavaDir sdk manifest : FPath) (tgt mn : Option String)
    (bt : FPath) (rn : Option String) (fs : Entries) : StageOut :=
  let cmd := linkCmd files outputApk rjavaDir sdk manifest tgt mn rn bt
  { fs := w.eff cmd fs, pre := fs, trace := [cmd],
    err := if w.rc cmd = 0 then none else some (.calledProcess (w.rc cmd)),
    ret := some (w.rc cmd) }

/-- Models `move_rjava(rjava_dir)`: find the files named `R.java` under
`rjava_dir`; zero hits raise, several hits raise, a unique hit `r` is
handed to `shutil.move(r, os.path.join(rjava_dir, 'R.java'))`.
`shutil.move` with a regular-file source checks `os.path.isdir(dst)`:
when a DIRECTORY sits at `rjava_dir/R.java` the real destination becomes
`dst/basename(src)`, and if an entry already exists there it raises
`shutil.Error` ("Destination path ... already exists"), else the file is
moved INTO that directory; when no directory sits at the destination,
`os.rename` moves the file to `rjava_dir/R.java` itself, silently
overwriting a non-directory entry.  The result records the performed move
as its (source, real destination) pair; the tree mutation itself is
consumed by nothing (`move_rjava` is `main`'s last statement). -/
def move_rjava (cwd : FPath) (fs : Entries) (rjavaDir : FPath) :
    Except PyErr (FPath × FPath) :=
  let rjava := Find.find_files cwd fs (.single rjavaDir) "R.java"
  match rjava with
  | [] => .error (.exception "R.java not found.")
  | [r] =>
      let dst := rjavaDir ++ ["R.java"]
      if isDir fs dst then
        let realDst := dst ++ [r.getLastD ""]
        if pathExists fs realDst then .error (.shutilError (renderP realDst))
        else .ok (r, realDst)
      else .ok (r, dst)
  | _ => .error
      (.exception "There are multiple R.java. Run gn clean and try again.")

/-- Options of `process_resources.py` (string-typed SDK-version and
rename options may be absent). -/
structure Opts where
  androidSdkPlatform : FPath
  androidSdkBuildTools : FPath
  manifest : FPath
  renameManifestPackage : Option String
  rjavaDir : FPath
  targetSdkVersion : Option String
  minSdkVersion : Option String
  output : FPath
  compileDir : FPath
  files : List FPath

/-- Outcome of `process_resources.py`'s `main`; `moved` is a ghost field
holding the (source, destination) pair of the `move_rjava` move when it
was reached and succeeded. -/
structure MainOut where
  fs : Entries
  trace : List (List String)
  err : Option PyErr
  moved : Option (FPath × FPath)

/-- Models `process_resources.py`'s `main`: `compile_resources` into
`--compile-dir`, find the `*.flat` files under it, `link_resources` them,
then `move_rjava`.  Any raised exception aborts the remaining stages. -/
def main (w : World) (cwd : FPath) (o : Opts) (fs : Entries) : MainOut :=
  let s1 := compile_resources w o.compileDir o.files o.androidSdkBuildTools fs
  match s1.err with
  | some e =>
      { fs := s1.fs, trace := s1.trace, err := some e, moved := none }
  | none =>
      let flat := Find.find_files cwd s1.fs (.single o.compileDir) "*.flat"
      let s2 := link_resources w flat o.output o.rjavaDir
        o.androidSdkPlatform o.manifest o.targetSdkVersion o.minSdkVersion
        o.androidSdkBuildTools o.renameManifestPackage s1.fs
      match s2.err with
      | some e =>
          { fs := s2.fs, trace := s1.trace ++ s2.trace, err := some e,
            moved := none }
      | none =>
          match move_rjava cwd s2.fs o.rjavaDir with
          | .error e =>
              { fs := s2.fs, trace := s1.trace ++ s2.trace, err := some e,
                moved := none }
          | .ok mv =>
              { fs := s2.fs, trace := s1.trace ++ s2.trace, err := none,
                moved := some mv }

end ProcRes

namespace Signer

/-- The argv vector `signer.py`'s `add_dex` builds. -/
def zipCmd (output dex : String) : List String := ["zip", "-uj", output, dex]

/-- Models `signer.py`'s `add_dex`: `os.makedirs` of the output's
`os.path.split` head (with `exist_ok=True`), `shutil.copy(apk, output)`,
then an UNCHECKED `subprocess.run(["zip", "-uj", output, dex])` — its
returncode is recorded in `ret` but a non-zero value raises nothing. -/
def add_dex (w : World) (apk dex output : String) (fs : Entries) : StageOut :=
  match osMakedirsStr fs (osPathSplit output).1 with
  | .error e => { fs := fs, pre := fs, trace := [], err := some e, ret := none }
  | .ok fs1 =>
      match copyFile fs1 (strToComps apk) (strToComps output) with
      | .error e =>
          { fs := fs1, pre := fs1, trace := [], err := some e, ret := none }
      | .ok fs2 =>
          let cmd := zipCmd output dex
          { fs := w.eff cmd fs2, pre := fs2, trace := [cmd], err := none,
            ret := some (w.rc cmd) }

/-- The argv vector `signer.py`'s `sign` builds
(`os.path.join(build_tools_dir, "apksigner")`). -/
def signCmd (output key cert btDir : String) : List String :=
  [osPathJoin btDir "apksigner", "sign", "--key", key, "--cert", cert, output]

/-- Models `signer.py`'s `sign`: `os.makedirs` of the output's dirname,
`shutil.copy(apk, output)` — the copy happens BEFORE the tool runs, and
`apksigner sign` then signs the copy in place — then an UNCHECKED
`subprocess.run`; a non-zero returncode raises nothing. -/
def sign (w : World) (apk output key cert btDir : String) (fs : Entries) :
    StageOut :=
  match osMakedirsStr fs (osPathSplit output).1 with
  | .error e => { fs := fs, pre := fs, trace := [], err := some e, ret := none }
  | .ok fs1 =>
      match copyFile fs1 (strToComps apk) (strToComps output) with
      | .error e =>
          { fs := fs1, pre := fs1, trace := [], err := some e, ret := none }
      | .ok fs2 =>
          let cmd := signCmd output key cert btDir
          { fs := w.eff cmd fs2, pre := fs2, trace := [cmd], err := none,
            ret := some (w.rc cmd) }

/-- Options of `signer.py` (argparse with no `type=`: plain strings;
`--dex` may be absent). -/
structure Opts where
  apk : String
  dex : Option String
  unsignedApk : String
  output : String
  key : String
  cert : String
  buildToolsDir : String

/-- Value a `main` run ends with: either a value returned by `main` (an
`int`, or the `CompletedProcess` object of the dead `return exit_status`
branch, which `sys.exit` would turn into status 1), or a raised exception
(which CPython turns into a non-zero process status). -/
inductive Ret where
  | code (n : Int) : Ret
  | completed (returncode : Int) : Ret
deriving DecidableEq, Repr

/-- Outcome of `signer.py`'s `main`. -/
structure MainOut where
  fs : Entries
  trace : List (List String)
  outcome : Except PyErr Ret

/-- Python truthiness of the `--dex` option (`None` and `""` are falsy). -/
def pyTruthyStr : Option String → Bool
  | none => false
  | some s => s ≠ ""

/-- Truthiness of a `subprocess.CompletedProcess`: the class defines
neither `__bool__` nor `__len__`, so every instance is truthy, whatever
its returncode. -/
def pyTruthyCompleted (_returncode : Int) : Bool := true

/-- Models `signer.py`'s `main`: optionally `add_dex` (when `--dex` is
truthy; its returncode is discarded), then `sign`, whose
`CompletedProcess` is bound to `exit_status`; `if not exit_status:` tests
the truthiness of the object — always false — so the branch returning
`exit_status` is dead and `main` falls through to `return 0`. -/
def main (w : World) (o : Opts) (fs : Entries) : MainOut :=
  let afterDex : Entries × List (List String) × Option PyErr :=
    if pyTruthyStr o.dex then
      let s1 := add_dex w o.apk (o.dex.getD "") o.unsignedApk fs
      (s1.fs, s1.trace, s1.err)
    else (fs, [], none)
  match afterDex with
  | (fs1, tr1, some e) => { fs := fs1, trace := tr1, outcome := .error e }
  | (fs1, tr1, none) =>
      let s2 := sign w o.unsignedApk o.output o.key o.cert o.buildToolsDir fs1
      match s2.err with
      | some e =>
          { fs := s2.fs, trace := tr1 ++ s2.trace, outcome := .error e }
      | none =>
          if pyTruthyCompleted (s2.ret.getD 0) = false then
            { fs := s2.fs, trace := tr1 ++ s2.trace,
              outcome := .ok (.completed (s2.ret.getD 0)) }
          else
            { fs := s2.fs, trace := tr1 ++ s2.trace, outcome := .ok (.code 0) }

end Signer

namespace Clang

/-- Modelled from Python stdlib `argparse`: the public attributes of an
`argparse.ArgumentParser` instance relevant to lookup — parsing happens
through `parse_args` / `parse_known_args` / `parse_intermixed_args`; the
class has NO attribute named `parse`. -/
def argParserAttrs : List String :=
  ["add_argument", "add_argument_group", "add_subparsers", "parse_args",
   "parse_known_args", "parse_intermixed_args", "parse_known_intermixed_args",
   "format_help", "format_usage", "print_help", "print_usage", "error",
   "exit", "set_defaults", "get_default"]

/-- Attribute lookup on the parser object: a missing attribute raises
`AttributeError`. -/
def getAttr (name : String) : Except PyErr Unit :=
  if name ∈ argParserAttrs then .ok () else .error (.attributeError name)

/-- The argv vector `clang.py`'s `compile_object_files` builds
(`clang_bin + "/clang++"` is string concatenation in the source). -/
def clangCmd (clangBin : String) : List String := [clangBin ++ "/clang++"]

/-- Models `clang.py`'s `compile_object_files`: a checked
`subprocess.run([clang_bin + "/clang++"])`. -/
def compile_object_files (w : World) (clangBin : String) (fs : Entries) :
    StageOut :=
  let cmd := clangCmd clangBin
  { fs := w.eff cmd fs, pre := fs, trace := [cmd],
    err := if w.rc cmd = 0 then none else some (.calledProcess (w.rc cmd)),
    ret := some (w.rc cmd) }

/-- Models `clang.py`'s `compile_so_file`: the body is `pass`, so it
touches nothing, runs nothing and returns `None`. -/
def compile_so_file (_clangBin : String) (fs : Entries) :
    StageOut × Option String :=
  ({ fs := fs, pre := fs, trace := [], err := none, ret := none }, none)

/-- Models `clang.py`'s `package_so_object_into_apk`: the body is `pass`,
so it touches nothing, runs nothing and returns `None`. -/
def package_so_object_into_apk (_soFile _apk : String) (fs : Entries) :
    StageOut × Option String :=
  ({ fs := fs, pre := fs, trace := [], err := none, ret := none }, none)

/-- Outcome of `clang.py`'s `main`. -/
structure MainOut where
  fs : Entries
  trace : List (List String)
  err : Option PyErr

/-- Models `clang.py`'s `main`: it calls `parser.parse(args)`; the
attribute lookup of `parse` on the `ArgumentParser` raises
`AttributeError` before any argument is examined or any tool is run, so
the `.ok` branch below is dead (`clang_fails_before_any_tool` proves it). -/
def main (_w : World) (_argv : List String) (fs : Entries) : MainOut :=
  match getAttr "parse" with
  | .error e => { fs := fs, trace := [], err := some e }
  | .ok _ => { fs := fs, trace := [], err := none }

end Clang

/-! ## Concrete worlds and fixtures used by witnesses and counterexamples -/

/-- A world in which every tool succeeds and leaves the filesystem alone. -/
def wAllOk : World := { rc := fun _ => 0, eff := fun _ fs => fs }

/-- A world in which every tool exits 1 and leaves the filesystem alone
(for example a tool that fails its argument validation right away). -/
def wAllFail : World := { rc := fun _ => 1, eff := fun _ fs => fs }

/-- A root holding just the input APK `app.apk`. -/
def fsApkFx : Entries := .cons "app.apk" .file .nil

/-- A valid `signer.py` invocation with `--dex` given. -/
def signerOptsFx : Signer.Opts :=
  { apk := "app.apk", dex := some "classes.dex",
    unsignedApk := "u/unsigned.apk", output := "o/out.apk", key := "k.pem",
    cert := "c.pem", buildToolsDir := "bt" }

/-- A root holding just the unsigned APK `u.apk`. -/
def fsUnsignedFx : Entries := .cons "u.apk" .file .nil

/-- A valid `javac.py` invocation. -/
def javacOptsFx : Javac.Opts :=
  { androidSdkPlatform := ["sdk", "android.jar"], output := ["out", "app.apk"],
    dexDir := ["dex"], classDir := ["cls"], androidSdkBuildTools := ["bt"],
    resourceApk := ["res.apk"], files := [["src", "A.java"]] }

/-- A root holding just the resource APK `res.apk`. -/
def fsJavacFx : Entries := .cons "res.apk" .file .nil

/-- A valid `process_resources.py` invocation. -/
def procResOptsFx : ProcRes.Opts :=
  { androidSdkPlatform := ["sdk", "android.jar"],
    androidSdkBuildTools := ["bt"], manifest := ["m.xml"],
    renameManifestPackage := none, rjavaDir := ["rj"],
    targetSdkVersion := some "30", minSdkVersion := none,
    output := ["o", "res.apk"], compileDir := ["cd"], files := [["res"]] }

/-- A root with exactly one `R.java`, nested below `rj/p/`. -/
def fsProcResFx : Entries :=
  .cons "rj" (.dir (.cons "p" (.dir (.cons "R.java" .file .nil)) .nil)) .nil

/-- A tree with exactly one `R.java` file (below `rj/p/`) and an empty
DIRECTORY named `R.java` directly under `rj`. -/
def fsMoveIntoDirFx : Entries :=
  .cons "rj" (.dir (.cons "p" (.dir (.cons "R.java" .file .nil))
      (.cons "R.java" (.dir .nil) .nil))) .nil

/-- A tree with exactly one `R.java` file (below `rj/p/`) and a directory
named `R.java` directly under `rj` that itself holds a subdirectory named
`R.java`. -/
def fsMoveClashFx : Entries :=
  .cons "rj" (.dir (.cons "p" (.dir (.cons "R.java" .file .nil))
      (.cons "R.java" (.dir (.cons "R.java" (.dir .nil) .nil)) .nil))) .nil

/-- A small tree exercising `find_files`: matching files at several
depths, a matching directory and a matching non-file entry. -/
def fsFindFx : Entries :=
  .cons "A" (.dir (.cons "x.class" .file (.cons "B"
      (.dir (.cons "y.class" .file .nil)) .nil)))
    (.cons "z.class" .file (.cons "d.class" (.dir .nil)
      (.cons "e.class" .other .nil)))

/-- A world agreeing with `wAllOk` on every command whose first word is
not `unused`, and differing from it on the rest. -/
def wOkElsewhere : World :=
  { rc := fun c => if c.head? = some "unused" then 7 else 0,
    eff := fun _ fs => fs }

/-! ## Helper lemmas about the filesystem model -/

/-- Spine induction for `Entries` (the `induction` tactic cannot use the
mutual recursor directly). -/
theorem entriesInd (motive : Entries → Prop) (nil : motive .nil)
    (cons : ∀ (n : String) (c : Node) (rest : Entries),
      motive rest → motive (.cons n c rest)) : ∀ es, motive es
  | .nil => nil
  | .cons n c rest => cons n c rest (entriesInd motive nil cons rest)

theorem findE_setE_self (es : Entries) (name : String) (m : Node) :
    findE (setE es name m) name = some m := by
  induction es using entriesInd with
  | nil => simp [setE, findE]
  | cons n c rest ih =>
      by_cases h : n = name
      · simp [setE, h, findE]
      · simp [setE, h, findE, ih]

theorem findE_setE_ne (es : Entries) (name : String) (m : Node) (a : String)
    (h : a ≠ name) : findE (setE es name m) a = findE es a := by
  induction es using entriesInd with
  | nil => simp [setE, findE, Ne.symm h]
  | cons n c rest ih =>
      by_cases hn : n = name
      · subst hn
        simp [setE, findE, Ne.symm h]
      · simp only [setE, if_neg hn, findE, ih]

theorem setE_self (es : Entries) (name : String) (m : Node)
    (h : findE es name = some m) : setE es name m = es := by
  induction es using entriesInd with
  | nil => simp [findE] at h
  | cons n c rest ih =>
      by_cases hn : n = name
      · subst hn
        simp [findE] at h
        simp [setE, h]
      · simp [findE, hn] at h
        simp [setE, hn, ih h]

theorem hasName_false_findE (es : Entries) (name : String)
    (h : hasName es name = false) : findE es name = none := by
  induction es using entriesInd with
  | nil => simp [findE]
  | cons n c rest ih =>
      simp [hasName] at h
      simp [findE, h.1, ih h.2]

theorem nodeAt_append (q : FPath) : ∀ (n : Node) (p : FPath),
    nodeAt n (p ++ q) = (nodeAt n p).bind (fun m => nodeAt m q) := by
  intro n p
  induction p generalizing n with
  | nil => simp [nodeAt]
  | cons c rest ih =>
      cases n with
      | file => simp [nodeAt]
      | other => simp [nodeAt]
      | dir es =>
          simp only [List.cons_append, nodeAt]
          cases findE es c with
          | none => simp
          | some m => simp [ih m]

theorem isFile_iff (fs : Entries) (p : FPath) :
    isFile fs p = true ↔ nodeAt (.dir fs) p = some .file := by
  unfold isFile
  cases h : nodeAt (.dir fs) p with
  | none => simp
  | some m => cases m <;> simp

theorem isDir_iff (fs : Entries) (p : FPath) :
    isDir fs p = true ↔ ∃ cs, nodeAt (.dir fs) p = some (.dir cs) := by
  unfold isDir
  cases h : nodeAt (.dir fs) p with
  | none => simp
  | some m => cases m <;> simp

theorem mkdirs_ok_isDir : ∀ (es : Entries) (p : FPath) (es2 : Entries),
    mkdirsE es p = .ok es2 → isDir es2 p = true := by
  intro es p
  induction p generalizing es with
  | nil =>
      intro es2 h
      simp [mkdirsE] at h
      subst h
      simp [isDir, nodeAt]
  | cons c rest ih =>
      intro es2 h
      unfold mkdirsE at h
      cases hf : findE es c with
      | some m =>
          cases m with
          | dir cs =>
              simp [hf] at h
              cases hr : mkdirsE cs rest with
              | ok cs2 =>
                  simp [hr] at h
                  subst h
                  have hd := ih cs cs2 hr
                  rw [isDir_iff] at hd ⊢
                  obtain ⟨ds, hds⟩ := hd
                  refine ⟨ds, ?_⟩
                  simp [nodeAt, findE_setE_self]
                  simpa [nodeAt] using hds
              | error e => simp [hr] at h
          | file => simp [hf] at h
          | other => simp [hf] at h
      | none =>
          simp [hf] at h
          cases hr : mkdirsE .nil rest with
          | ok cs2 =>
              simp [hr] at h
              subst h
              have hd := ih .nil cs2 hr
              rw [isDir_iff] at hd ⊢
              obtain ⟨ds, hds⟩ := hd
              refine ⟨ds, ?_⟩
              simp [nodeAt, findE_setE_self]
              simpa [nodeAt] using hds
          | error e => simp [hr] at h

theorem isDir_mkdirs_ok : ∀ (es : Entries) (p : FPath),
    isDir es p = true → mkdirsE es p = .ok es := by
  intro es p
  induction p generalizing es with
  | nil => intro _; simp [mkdirsE]
  | cons c rest ih =>
      intro h
      rw [isDir_iff] at h
      obtain ⟨cs, hcs⟩ := h
      simp only [nodeAt] at hcs
      cases hf : findE es c with
      | none => simp [hf] at hcs
      | some m =>
          simp [hf] at hcs
          cases m with
          | file =>
              cases rest with
              | nil => simp [nodeAt] at hcs
              | cons b t => simp [nodeAt] at hcs
          | other =>
              cases rest with
              | nil => simp [nodeAt] at hcs
              | cons b t => simp [nodeAt] at hcs
          | dir ds =>
              have hdd : isDir ds rest = true := by
                rw [isDir_iff]
                exact ⟨cs, hcs⟩
              unfold mkdirsE
              simp [hf, ih ds hdd, setE_self es c (.dir ds) hf]

theorem setFileAt_ok_isFile : ∀ (q : FPath) (es es2 : Entries),
    setFileAt es q = .ok es2 → isFile es2 q = true := by
  intro q
  induction q with
  | nil => intro es es2 h; simp [setFileAt] at h
  | cons c rest ih =>
      intro es es2 h
      cases rest with
      | nil =>
          unfold setFileAt at h
          cases hf : findE es c with
          | some m =>
              cases m with
              | dir ds => simp [hf] at h
              | file =>
                  simp [hf] at h
                  subst h
                  simp [isFile, nodeAt, findE_setE_self]
              | other =>
                  simp [hf] at h
                  subst h
                  simp [isFile, nodeAt, findE_setE_self]
          | none =>
              simp [hf] at h
              subst h
              simp [isFile, nodeAt, findE_setE_self]
      | cons b t =>
          unfold setFileAt at h
          cases hf : findE es c with
          | some m =>
              cases m with
              | dir ds =>
                  simp [hf] at h
                  cases hr : setFileAt ds (b :: t) with
                  | ok ds2 =>
                      simp [hr] at h
                      subst h
                      have hfl := ih ds ds2 hr
                      rw [isFile_iff] at hfl ⊢
                      simp [nodeAt, findE_setE_self]
                      simpa [nodeAt] using hfl
                  | error e => simp [hr] at h
              | file => simp [hf] at h
              | other => simp [hf] at h
          | none => simp [hf] at h

theorem setFileAt_keeps_isDir : ∀ (q : FPath) (es es2 : Entries),
    setFileAt es q = .ok es2 →
      ∀ p, isDir es p = true → isDir es2 p = true := by
  intro q
  induction q with
  | nil => intro es es2 h; simp [setFileAt] at h
  | cons c rest ih =>
      intro es es2 h p hp
      cases p with
      | nil => simp [isDir, nodeAt]
      | cons a p2 =>
          rw [isDir_iff] at hp
          obtain ⟨cs, hcs⟩ := hp
          simp only [nodeAt] at hcs
          cases hfa : findE es a with
          | none => simp [hfa] at hcs
          | some ma =>
              simp [hfa] at hcs
              have hma : ∃ ds, ma = .dir ds ∧ nodeAt (.dir ds) p2 = some (.dir cs) := by
                cases ma with
                | file =>
                    cases p2 with
                    | nil => simp [nodeAt] at hcs
                    | cons x y => simp [nodeAt] at hcs
                | other =>
                    cases p2 with
                    | nil => simp [nodeAt] at hcs
                    | cons x y => simp [nodeAt] at hcs
                | dir ds => exact ⟨ds, rfl, hcs⟩
              obtain ⟨ds, hds, hat⟩ := hma
              subst hds
              cases rest with
              | nil =>
                  unfold setFileAt at h
                  cases hf : findE es c with
                  | some m =>
                      cases m with
                      | dir es3 => simp [hf] at h
                      | file =>
                          simp [hf] at h
                          subst h
                          by_cases hac : a = c
                          · subst hac
                            rw [hfa] at hf
                            simp at hf
                          · rw [isDir_iff]
                            refine ⟨cs, ?_⟩
                            simp [nodeAt, findE_setE_ne es c .file a hac, hfa, hat]
                      | other =>
                          simp [hf] at h
                          subst h
                          by_cases hac : a = c
                          · subst hac
                            rw [hfa] at hf
                            simp at hf
                          · rw [isDir_iff]
                            refine ⟨cs, ?_⟩
                            simp [nodeAt, findE_setE_ne es c .file a hac, hfa, hat]
                  | none =>
                      simp [hf] at h
                      subst h
                      by_cases hac : a = c
                      · subst hac
                        rw [hfa] at hf
                        simp at hf
                      · rw [isDir_iff]
                        refine ⟨cs, ?_⟩
                        simp [nodeAt, findE_setE_ne es c .file a hac, hfa, hat]
              | cons b t =>
                  unfold setFileAt at h
                  cases hf : findE es c with
                  | some m =>
                      cases m with
                      | dir es3 =>
                          simp [hf] at h
                          cases hr : setFileAt es3 (b :: t) with
                          | ok es4 =>
                              simp [hr] at h
                              subst h
                              by_cases hac : a = c
                              · subst hac
                                rw [hfa] at hf
                                have hde : Node.dir ds = Node.dir es3 := by
                                  simpa using hf
                                cases hde
                                have hdd : isDir ds p2 = true := by
                                  rw [isDir_iff]; exact ⟨cs, hat⟩
                                have := ih ds es4 hr p2 hdd
                                rw [isDir_iff] at this ⊢
                                obtain ⟨zs, hzs⟩ := this
                                refine ⟨zs, ?_⟩
                                simp [nodeAt, findE_setE_self]
                                simpa [nodeAt] using hzs
                              · rw [isDir_iff]
                                refine ⟨cs, ?_⟩
                                simp [nodeAt,
                                  findE_setE_ne es c (.dir es4) a hac, hfa, hat]
                          | error e => simp [hr] at h
                      | file => simp [hf] at h
                      | other => simp [hf] at h
                  | none => simp [hf] at h

theorem entriesWf_findE : ∀ (es : Entries) (c : String) (m : Node),
    entriesWf es = true → findE es c = some m → nodeWf m = true := by
  intro es
  induction es using entriesInd with
  | nil => intro c m _ h; simp [findE] at h
  | cons n child rest ih =>
      intro c m hwf h
      simp only [entriesWf, Bool.and_eq_true] at hwf
      unfold findE at h
      by_cases hn : n = c
      · simp [hn] at h
        subst h
        exact hwf.1.2
      · simp [hn] at h
        exact ih c m hwf.2 h

theorem wf_nodeAt : ∀ (p : FPath) (n m : Node),
    nodeWf n = true → nodeAt n p = some m → nodeWf m = true := by
  intro p
  induction p with
  | nil =>
      intro n m hwf h
      simp [nodeAt] at h
      subst h
      exact hwf
  | cons c rest ih =>
      intro n m hwf h
      cases n with
      | file => simp [nodeAt] at h
      | other => simp [nodeAt] at h
      | dir es =>
          simp only [nodeAt] at h
          cases hf : findE es c with
          | none => simp [hf] at h
          | some m2 =>
              simp [hf] at h
              have h2 : nodeWf m2 = true :=
                entriesWf_findE es c m2 (by simpa [nodeWf] using hwf) hf
              exact ih m2 m h2 h

theorem getLast?_cons_ne_nil (a : String) (l : List String) (h : l ≠ []) :
    (a :: l).getLast? = l.getLast? := by
  cases l with
  | nil => simp at h
  | cons b t => simp [List.getLast?_cons_cons]

theorem mem_rglobHere (pat : String) : ∀ (es : Entries) (r : FPath),
    r ∈ rglobHere pat es ↔
      ∃ name, r = [name] ∧ (findE es name).isSome ∧ fnmatch name pat = true := by
  intro es
  induction es using entriesInd with
  | nil => intro r; simp [rglobHere, findE]
  | cons n child rest ih =>
      intro r
      simp only [rglobHere, List.mem_append]
      constructor
      · intro h
        rcases h with h | h
        · by_cases hm : fnmatch n pat
          · simp [hm] at h
            exact ⟨n, h, by simp [findE], hm⟩
          · simp [hm] at h
        · obtain ⟨name, hr, hs, hm⟩ := (ih r).mp h
          refine ⟨name, hr, ?_, hm⟩
          by_cases hn : n = name
          · simp [findE, hn]
          · simpa [findE, hn] using hs
      · intro h
        obtain ⟨name, hr, hs, hm⟩ := h
        by_cases hn : n = name
        · subst hn
          left
          simp [hm, hr]
        · right
          refine (ih r).mpr ⟨name, hr, ?_, hm⟩
          simpa [findE, hn] using hs

mutual

theorem mem_rglobNode (pat : String) : ∀ (n : Node), nodeWf n = true →
    ∀ r : FPath, (r ∈ rglobNode pat n ↔
      r ≠ [] ∧ (nodeAt n r).isSome ∧
        ∃ name, r.getLast? = some name ∧ fnmatch name pat = true)
  | .file => by
      intro _ r
      cases r <;> simp [rglobNode, nodeAt]
  | .other => by
      intro _ r
      cases r <;> simp [rglobNode, nodeAt]
  | .dir es => by
      intro hwf r
      have hwe : entriesWf es = true := by simpa [nodeWf] using hwf
      simp only [rglobNode, List.mem_append]
      cases r with
      | nil =>
          constructor
          · intro h
            rcases h with h | h
            · obtain ⟨name, hn, -, -⟩ := (mem_rglobHere pat es []).mp h
              simp at hn
            · obtain ⟨c, r2, m, hn, -, -⟩ := (mem_rglobSub pat es hwe []).mp h
              simp at hn
          · rintro ⟨hne, -, -⟩
            exact absurd rfl hne
      | cons c rest =>
          cases rest with
          | nil =>
              constructor
              · intro h
                rcases h with h | h
                · obtain ⟨name, hn, hs, hm⟩ := (mem_rglobHere pat es [c]).mp h
                  have hnc : c = name := by simpa using hn
                  subst hnc
                  refine ⟨by simp, ?_, c, by simp, hm⟩
                  cases hf : findE es c with
                  | none => rw [hf] at hs; simp at hs
                  | some m => simp [nodeAt, hf]
                · obtain ⟨c2, r2, m, hn, -, hΦ⟩ :=
                    (mem_rglobSub pat es hwe [c]).mp h
                  obtain ⟨-, h2⟩ : c = c2 ∧ ([] : FPath) = r2 := by simpa using hn
                  exact absurd h2.symm hΦ.1
              · rintro ⟨-, hs, name, hl, hm⟩
                have hnc : name = c := by
                  have := hl
                  simp at this
                  exact this.symm
                left
                refine (mem_rglobHere pat es [c]).mpr ⟨c, rfl, ?_, hnc ▸ hm⟩
                cases hf : findE es c with
                | none => simp [nodeAt, hf] at hs
                | some m => simp [hf]
          | cons b t =>
              constructor
              · intro h
                rcases h with h | h
                · obtain ⟨name, hn, -, -⟩ :=
                    (mem_rglobHere pat es (c :: b :: t)).mp h
                  simp at hn
                · obtain ⟨c2, r2, m, hn, hfind, hΦ⟩ :=
                    (mem_rglobSub pat es hwe (c :: b :: t)).mp h
                  obtain ⟨h1, h2⟩ : c = c2 ∧ b :: t = r2 := by simpa using hn
                  subst h1
                  subst h2
                  obtain ⟨-, hsome2, name, hl2, hm2⟩ := hΦ
                  refine ⟨by simp, ?_, name, ?_, hm2⟩
                  · simpa [nodeAt, hfind] using hsome2
                  · rw [getLast?_cons_ne_nil c (b :: t) (by simp)]
                    exact hl2
              · rintro ⟨-, hs, name, hl, hm⟩
                right
                cases hf : findE es c with
                | none => simp [nodeAt, hf] at hs
                | some m =>
                    refine (mem_rglobSub pat es hwe (c :: b :: t)).mpr
                      ⟨c, b :: t, m, rfl, hf, by simp, ?_, name, ?_, hm⟩
                    · simpa [nodeAt, hf] using hs
                    · rw [getLast?_cons_ne_nil c (b :: t) (by simp)] at hl
                      exact hl

theorem mem_rglobSub (pat : String) : ∀ (es : Entries), entriesWf es = true →
    ∀ r : FPath, (r ∈ rglobSub pat es ↔
      ∃ c r2 m, r = c :: r2 ∧ findE es c = some m ∧
        (r2 ≠ [] ∧ (nodeAt m r2).isSome ∧
          ∃ name, r2.getLast? = some name ∧ fnmatch name pat = true))
  | .nil => by
      intro _ r
      simp [rglobSub, findE]
  | .cons name child rest => by
      intro hwf r
      simp only [entriesWf, Bool.and_eq_true] at hwf
      obtain ⟨⟨hnn, hwc⟩, hwr⟩ := hwf
      have hfe : findE rest name = none :=
        hasName_false_findE rest name (by simpa using hnn)
      simp only [rglobSub, List.mem_append]
      constructor
      · intro h
        rcases h with h | h
        · rw [List.mem_map] at h
          obtain ⟨r2, hr2, hmap⟩ := h
          obtain ⟨hne, hsome, nm, hl, hm⟩ :=
            (mem_rglobNode pat child hwc r2).mp hr2
          exact ⟨name, r2, child, hmap.symm, by simp [findE],
            hne, hsome, nm, hl, hm⟩
        · obtain ⟨c, r2, m, hr, hfind, hΦ⟩ :=
            (mem_rglobSub pat rest hwr r).mp h
          have hnc : name ≠ c := by
            intro he
            subst he
            rw [hfe] at hfind
            exact Option.noConfusion hfind
          exact ⟨c, r2, m, hr, by simp [findE, hnc, hfind], hΦ⟩
      · rintro ⟨c, r2, m, hr, hfind, hΦ⟩
        by_cases hnc : name = c
        · left
          rw [List.mem_map]
          have hmc : m = child := by
            rw [← hnc] at hfind
            have := hfind
            simp [findE] at this
            exact this.symm
          have hΦ2 := hΦ
          rw [hmc] at hΦ2
          refine ⟨r2, (mem_rglobNode pat child hwc r2).mpr hΦ2, ?_⟩
          rw [hnc, hr]
        · right
          refine (mem_rglobSub pat rest hwr r).mpr ⟨c, r2, m, hr, ?_, hΦ⟩
          simpa [findE, hnc] using hfind

end

theorem mem_rglob (fs : Entries) (base : FPath) (pat : String)
    (hwf : entriesWf fs = true) (q : FPath) :
    q ∈ rglob fs base pat ↔
      ∃ rel, q = base ++ rel ∧ rel ≠ [] ∧
        (nodeAt (.dir fs) (base ++ rel)).isSome ∧
        ∃ name, rel.getLast? = some name ∧ fnmatch name pat = true := by
  unfold rglob
  cases hb : nodeAt (.dir fs) base with
  | none =>
      constructor
      · intro h
        simp at h
      · rintro ⟨rel, hq, hne, hsome, -⟩
        rw [nodeAt_append rel (.dir fs) base, hb] at hsome
        simp at hsome
  | some n =>
      have hwn : nodeWf n = true :=
        wf_nodeAt base (.dir fs) n (by simpa [nodeWf] using hwf) hb
      constructor
      · intro h
        rw [List.mem_map] at h
        obtain ⟨rel, hrel, hq⟩ := h
        obtain ⟨hne, hsome, nm, hl, hm⟩ :=
          (mem_rglobNode pat n hwn rel).mp hrel
        refine ⟨rel, hq.symm, hne, ?_, nm, hl, hm⟩
        rw [nodeAt_append rel (.dir fs) base, hb]
        simpa using hsome
      · rintro ⟨rel, hq, hne, hsome, nm, hl, hm⟩
        rw [List.mem_map]
        refine ⟨rel, (mem_rglobNode pat n hwn rel).mpr
          ⟨hne, ?_, nm, hl, hm⟩, hq.symm⟩
        rw [nodeAt_append rel (.dir fs) base, hb] at hsome
        simpa using hsome

theorem mem_find_files (cwd : FPath) (fs : Entries) (ps : List FPath)
    (pat : String) (hwf : entriesWf fs = true) (y : FPath) :
    y ∈ Find.find_files cwd fs (.many ps) pat ↔
      ∃ p ∈ ps, ∃ rel, rel ≠ [] ∧ y = cwd ++ p ++ rel ∧
        nodeAt (.dir fs) (p ++ rel) = some .file ∧
        ∃ name, rel.getLast? = some name ∧ fnmatch name pat = true := by
  unfold Find.find_files
  simp only [List.mem_flatMap, List.mem_map, List.mem_filter]
  constructor
  · rintro ⟨p, hp, q, ⟨hq, hfile⟩, hy⟩
    obtain ⟨rel, hqe, hne, hsome, nm, hl, hm⟩ :=
      (mem_rglob fs p pat hwf q).mp hq
    subst hqe
    refine ⟨p, hp, rel, hne, ?_, ?_, nm, hl, hm⟩
    · rw [← hy, List.append_assoc]
    · rw [← isFile_iff]
      exact hfile
  · rintro ⟨p, hp, rel, hne, hy, hfile, nm, hl, hm⟩
    refine ⟨p, hp, p ++ rel, ⟨?_, ?_⟩, ?_⟩
    · refine (mem_rglob fs p pat hwf (p ++ rel)).mpr
        ⟨rel, rfl, hne, ?_, nm, hl, hm⟩
      rw [hfile]
      simp
    · rw [isFile_iff]
      exact hfile
    · rw [hy, List.append_assoc]

/-! ## Claim theorems -/

/-- C1: the claim states that `signer.py`'s `main` yields a non-zero
process exit status whenever a launched subprocess (the `zip` run by
`add_dex`, or the `apksigner` run by `sign`) exits non-zero, and exit
status 0 only when every subprocess succeeds.  The code violates this:
this theorem evaluates a run in which both `zip` and `apksigner` exit 1,
both commands were launched, and `main` still returns 0 — `add_dex`'s
result is discarded, and the `if not exit_status:` guard in `main` tests
the truthiness of a `CompletedProcess` object, which is always truthy, so
`main` always falls through to `return 0`. -/
theorem c1_signer_exits_zero_despite_tool_failures :
    (Signer.main wAllFail signerOptsFx fsApkFx).outcome = .ok (.code 0)
    ∧ (Signer.main wAllFail signerOptsFx fsApkFx).trace =
        [Signer.zipCmd "u/unsigned.apk" "classes.dex",
         Signer.signCmd "o/out.apk" "k.pem" "c.pem" "bt"]
    ∧ wAllFail.rc (Signer.zipCmd "u/unsigned.apk" "classes.dex") = 1
    ∧ wAllFail.rc (Signer.signCmd "o/out.apk" "k.pem" "c.pem" "bt") = 1 :=
  ⟨rfl, by decide, rfl, rfl⟩

/-- C2 counterexample: the claim states that after a failing `apksigner`
run no file exists at the `--output` path.  In a run where `apksigner`
exits 1 without touching the filesystem, a regular file DOES sit at the
output path `o/out.apk`: `sign` copied the unsigned APK there before
invoking the tool, and nothing cleans it up. -/
theorem c2_file_exists_at_output_after_failed_sign :
    wAllFail.rc (Signer.signCmd "o/out.apk" "k.pem" "c.pem" "bt") = 1
    ∧ (Signer.sign wAllFail "u.apk" "o/out.apk" "k.pem" "c.pem" "bt"
        fsUnsignedFx).err = none
    ∧ isFile (Signer.sign wAllFail "u.apk" "o/out.apk" "k.pem" "c.pem" "bt"
        fsUnsignedFx).fs ["o", "out.apk"] = true :=
  ⟨rfl, rfl, by decide⟩

/-- C4 counterexample: the claim states `move_rjava` raises iff the
recursive search finds zero or more than one `R.java` file.  On a tree
where the search finds EXACTLY ONE file (`rj/p/R.java`) but a directory
named `R.java` sits at `rj/R.java` with an entry at `rj/R.java/R.java`,
`shutil.move` raises `shutil.Error` ("Destination path ... already
exists"), so `move_rjava` raises although exactly one file was found. -/
theorem c4_unique_rjava_yet_move_rjava_raises :
    (Find.find_files ["w"] fsMoveClashFx (.single ["rj"]) "R.java").length = 1
    ∧ (ProcRes.move_rjava ["w"] fsMoveClashFx ["rj"]).isOk = false
    ∧ ProcRes.move_rjava ["w"] fsMoveClashFx ["rj"]
        = .error (.shutilError "rj/R.java/R.java") :=
  ⟨by decide, by decide, rfl⟩

/-- C4 amended: `move_rjava(rjava_dir)` raises when the recursive search
for files named `R.java` under `rjava_dir` finds zero files or more than
one (it never silently picks one of several candidates); when it finds
exactly one, the outcome follows `shutil.move`: if no directory sits at
`rjava_dir/R.java` it raises nothing and moves the file to directly under
`rjava_dir`; if a directory sits there, it raises `shutil.Error` when an
entry already exists at `rjava_dir/R.java/<basename>` and otherwise
silently moves the file INTO that directory (to
`rjava_dir/R.java/<basename>`), not directly under `rjava_dir`. -/
theorem c4_amended_move_rjava_shutil_move_cases :
    ∀ (cwd : FPath) (fs : Entries) (d : FPath),
      ((Find.find_files cwd fs (.single d) "R.java").length ≠ 1 →
          (ProcRes.move_rjava cwd fs d).isOk = false)
      ∧ (∀ r, Find.find_files cwd fs (.single d) "R.java" = [r] →
          (isDir fs (d ++ ["R.java"]) = false →
              ProcRes.move_rjava cwd fs d = .ok (r, d ++ ["R.java"]))
          ∧ (isDir fs (d ++ ["R.java"]) = true →
              (pathExists fs (d ++ ["R.java", r.getLastD ""]) = true →
                  (ProcRes.move_rjava cwd fs d).isOk = false)
              ∧ (pathExists fs (d ++ ["R.java", r.getLastD ""]) = false →
                  ProcRes.move_rjava cwd fs d
                    = .ok (r, d ++ ["R.java", r.getLastD ""])))) := by
  intro cwd fs d
  constructor
  · intro hlen
    cases h : Find.find_files cwd fs (.single d) "R.java" with
    | nil => simp [ProcRes.move_rjava, h, Except.isOk, Except.toBool]
    | cons a t =>
        cases t with
        | nil =>
            rw [h] at hlen
            simp at hlen
        | cons b t2 =>
            simp [ProcRes.move_rjava, h, Except.isOk, Except.toBool]
  · intro r hr
    constructor
    · intro hnd
      simp [ProcRes.move_rjava, hr, hnd]
    · intro hd
      constructor
      · intro hex
        simp only [List.getLastD_eq_getLast?] at hex
        simp [ProcRes.move_rjava, hr, hd, hex, Except.isOk, Except.toBool]
      · intro hex
        simp only [List.getLastD_eq_getLast?] at hex
        simp [ProcRes.move_rjava, hr, hd, hex]

/-- C4 amended witness: the four concrete regimes — a unique `R.java`
with a free destination is moved to directly under `rj`; with an empty
directory at `rj/R.java` it is silently moved into it; with an occupied
`rj/R.java/R.java` the move raises; with zero hits `move_rjava` raises. -/
theorem c4_amended_witness :
    ProcRes.move_rjava ["w"] fsProcResFx ["rj"]
      = .ok (["w", "rj", "p", "R.java"], ["rj", "R.java"])
    ∧ ProcRes.move_rjava ["w"] fsMoveIntoDirFx ["rj"]
        = .ok (["w", "rj", "p", "R.java"], ["rj", "R.java", "R.java"])
    ∧ (ProcRes.move_rjava ["w"] fsMoveClashFx ["rj"]).isOk = false
    ∧ (ProcRes.move_rjava ["w"] Entries.nil ["rj"]).isOk = false := by
  have h := c4_amended_move_rjava_shutil_move_cases
  refine ⟨?_, ?_, ?_, ?_⟩
  · exact ((h ["w"] fsProcResFx ["rj"]).2 ["w", "rj", "p", "R.java"]
      (by decide)).1 (by decide)
  · exact (((h ["w"] fsMoveIntoDirFx ["rj"]).2 ["w", "rj", "p", "R.java"]
      (by decide)).2 (by decide)).2 (by decide)
  · exact (((h ["w"] fsMoveClashFx ["rj"]).2 ["w", "rj", "p", "R.java"]
      (by decide)).2 (by decide)).1 (by decide)
  · exact (h ["w"] Entries.nil ["rj"]).1 (by decide)

/-- C9: passing a single (non-list) path to `find_files` is the same as
passing the one-element list of it: the function wraps a non-list
argument before searching, so the yielded files and their order agree. -/
theorem c9_find_files_single_eq_singleton_list :
    ∀ (cwd : FPath) (fs : Entries) (p : FPath) (pat : String),
      Find.find_files cwd fs (.single p) pat
        = Find.find_files cwd fs (.many [p]) pat := by
  intro cwd fs p pat
  rfl

/-- C10: `clang.py`'s `main` raises `AttributeError` on every input —
`parser.parse(args)` looks up a method `argparse.ArgumentParser` does not
have — before any external tool is invoked or the filesystem is touched;
and `compile_so_file` / `package_so_object_into_apk` are `pass` stubs
that run nothing, change nothing and return `None`. -/
theorem c10_clang_main_always_raises :
    ∀ (w : World) (argv : List String) (fs : Entries) (b so apk : String),
      (Clang.main w argv fs).err = some (.attributeError "parse")
      ∧ (Clang.main w argv fs).trace = []
      ∧ (Clang.main w argv fs).fs = fs
      ∧ (Clang.compile_so_file b fs).1.fs = fs
      ∧ (Clang.compile_so_file b fs).1.trace = []
      ∧ (Clang.compile_so_file b fs).2 = none
      ∧ (Clang.package_so_object_into_apk so apk fs).1.fs = fs
      ∧ (Clang.package_so_object_into_apk so apk fs).1.trace = []
      ∧ (Clang.package_so_object_into_apk so apk fs).2 = none := by
  intro w argv fs b so apk
  exact ⟨rfl, rfl, rfl, rfl, rfl, rfl, rfl, rfl, rfl⟩

/-- C2 amended: each packaging/signing stage (`sign` and `add_dex` in
`signer.py`, `add_dexes` in `javac.py`) copies its input APK to the
output path BEFORE invoking its external tool and performs no cleanup
afterwards.  Whenever the stage's tool was invoked, the filesystem at
invocation time already held the copy — a regular file at the output path
(provided the output path is not a directory at that moment) — and the
stage's final filesystem is exactly the tool's effect on that state; so
after a failing run a file remains at the output path unless the tool
itself removed it.  The original claim, that no file exists at the output
path after a failure, is refuted by
`c2_file_exists_at_output_after_failed_sign`. -/
theorem c2_amended_copy_precedes_tool_no_cleanup :
    (∀ (w : World) (apk output key cert bt : String) (fs : Entries),
      (Signer.sign w apk output key cert bt fs).trace ≠ [] →
        (Signer.sign w apk output key cert bt fs).fs
            = w.eff (Signer.signCmd output key cert bt)
                (Signer.sign w apk output key cert bt fs).pre
        ∧ (isDir (Signer.sign w apk output key cert bt fs).pre
              (strToComps output) = false →
            isFile (Signer.sign w apk output key cert bt fs).pre
              (strToComps output) = true))
    ∧ (∀ (w : World) (apk dex output : String) (fs : Entries),
      (Signer.add_dex w apk dex output fs).trace ≠ [] →
        (Signer.add_dex w apk dex output fs).fs
            = w.eff (Signer.zipCmd output dex)
                (Signer.add_dex w apk dex output fs).pre
        ∧ (isDir (Signer.add_dex w apk dex output fs).pre
              (strToComps output) = false →
            isFile (Signer.add_dex w apk dex output fs).pre
              (strToComps output) = true))
    ∧ (∀ (w : World) (ra : FPath) (dexes : List FPath) (out : FPath)
        (fs : Entries),
      (Javac.add_dexes w ra dexes out fs).trace ≠ [] →
        (Javac.add_dexes w ra dexes out fs).fs
            = w.eff (Javac.addDexesCmd out dexes)
                (Javac.add_dexes w ra dexes out fs).pre
        ∧ (isDir (Javac.add_dexes w ra dexes out fs).pre out = false →
            isFile (Javac.add_dexes w ra dexes out fs).pre out = true)) := by
  refine ⟨?_, ?_, ?_⟩
  · intro w apk output key cert bt fs htr
    unfold Signer.sign at htr ⊢
    cases hm : osMakedirsStr fs (osPathSplit output).1 with
    | error e => simp [hm] at htr
    | ok fs1 =>
        simp only [hm] at htr ⊢
        cases hc : copyFile fs1 (strToComps apk) (strToComps output) with
        | error e => simp [hc] at htr
        | ok fs2 =>
            simp only [hc]
            refine ⟨trivial, ?_⟩
            intro hnd
            unfold copyFile at hc
            by_cases hisf : isFile fs1 (strToComps apk) = true
            · rw [if_pos hisf] at hc
              by_cases hd : isDir fs1 (strToComps output) = true
              · rw [if_pos hd] at hc
                have hd2 : isDir fs2 (strToComps output) = true :=
                  setFileAt_keeps_isDir _ fs1 fs2 hc (strToComps output) hd
                rw [hd2] at hnd
                exact absurd hnd (by simp)
              · rw [if_neg hd] at hc
                exact setFileAt_ok_isFile _ fs1 fs2 hc
            · rw [if_neg hisf] at hc
              exact absurd hc (by simp)
  · intro w apk dex output fs htr
    unfold Signer.add_dex at htr ⊢
    cases hm : osMakedirsStr fs (osPathSplit output).1 with
    | error e => simp [hm] at htr
    | ok fs1 =>
        simp only [hm] at htr ⊢
        cases hc : copyFile fs1 (strToComps apk) (strToComps output) with
        | error e => simp [hc] at htr
        | ok fs2 =>
            simp only [hc]
            refine ⟨trivial, ?_⟩
            intro hnd
            unfold copyFile at hc
            by_cases hisf : isFile fs1 (strToComps apk) = true
            · rw [if_pos hisf] at hc
              by_cases hd : isDir fs1 (strToComps output) = true
              · rw [if_pos hd] at hc
                have hd2 : isDir fs2 (strToComps output) = true :=
                  setFileAt_keeps_isDir _ fs1 fs2 hc (strToComps output) hd
                rw [hd2] at hnd
                exact absurd hnd (by simp)
              · rw [if_neg hd] at hc
                exact setFileAt_ok_isFile _ fs1 fs2 hc
            · rw [if_neg hisf] at hc
              exact absurd hc (by simp)
  · intro w ra dexes out fs htr
    unfold Javac.add_dexes at htr ⊢
    cases hm : mkdirsE fs out.dropLast with
    | error e => simp [hm] at htr
    | ok fs1 =>
        simp only [hm] at htr ⊢
        cases hc : copyFile fs1 ra out with
        | error e => simp [hc] at htr
        | ok fs2 =>
            simp only [hc]
            refine ⟨trivial, ?_⟩
            intro hnd
            unfold copyFile at hc
            by_cases hisf : isFile fs1 ra = true
            · rw [if_pos hisf] at hc
              by_cases hd : isDir fs1 out = true
              · rw [if_pos hd] at hc
                have hd2 : isDir fs2 out = true :=
                  setFileAt_keeps_isDir _ fs1 fs2 hc out hd
                rw [hd2] at hnd
                exact absurd hnd (by simp)
              · rw [if_neg hd] at hc
                exact setFileAt_ok_isFile _ fs1 fs2 hc
            · rw [if_neg hisf] at hc
              exact absurd hc (by simp)

/-- C2 amended witness: at the concrete failing-`apksigner` run of the
counterexample, the amended theorem yields that the copy of the unsigned
APK sits at the output path when the tool runs, and that the final state
is the tool's effect on it. -/
theorem c2_amended_witness :
    (Signer.sign wAllFail "u.apk" "o/out.apk" "k.pem" "c.pem" "bt"
        fsUnsignedFx).fs
      = wAllFail.eff (Signer.signCmd "o/out.apk" "k.pem" "c.pem" "bt")
          (Signer.sign wAllFail "u.apk" "o/out.apk" "k.pem" "c.pem" "bt"
            fsUnsignedFx).pre
    ∧ isFile (Signer.sign wAllFail "u.apk" "o/out.apk" "k.pem" "c.pem" "bt"
        fsUnsignedFx).pre ["o", "out.apk"] = true := by
  have h := c2_amended_copy_precedes_tool_no_cleanup.1 wAllFail "u.apk"
    "o/out.apk" "k.pem" "c.pem" "bt" fsUnsignedFx (by decide)
  exact ⟨h.1, h.2 (by decide)⟩

/-- C7 counterexample: the claim states that every stage, `link_resources`
included, creates its configured output directories as needed before
invoking its external tool.  `link_resources` creates none: starting from
an empty filesystem it invokes `aapt2 link` (with a tool touching
nothing) while neither the `R.java` directory `rj` nor the output APK's
directory `o` exists — before or after the invocation. -/
theorem c7_link_resources_creates_no_directory :
    (ProcRes.link_resources wAllOk [] ["o", "res.apk"] ["rj"] ["sdk"]
        ["m.xml"] none none ["bt"] none .nil).trace =
      [ProcRes.linkCmd [] ["o", "res.apk"] ["rj"] ["sdk"] ["m.xml"]
        none none none ["bt"]]
    ∧ (ProcRes.link_resources wAllOk [] ["o", "res.apk"] ["rj"] ["sdk"]
        ["m.xml"] none none ["bt"] none .nil).pre = .nil
    ∧ isDir (ProcRes.link_resources wAllOk [] ["o", "res.apk"] ["rj"] ["sdk"]
        ["m.xml"] none none ["bt"] none .nil).fs ["rj"] = false
    ∧ isDir (ProcRes.link_resources wAllOk [] ["o", "res.apk"] ["rj"] ["sdk"]
        ["m.xml"] none none ["bt"] none .nil).fs ["o"] = false :=
  ⟨rfl, rfl, by decide, by decide⟩

/-- C7 amended: every stage EXCEPT `link_resources` creates its output
directory before invoking its external tool, via
`os.makedirs(..., exist_ok=True)`: creation includes parents
(`mkdirsE`-ok implies the directory exists), a pre-existing directory is
not an error (for `signer.py`'s string paths this additionally needs a
nonempty directory part, since `os.makedirs('')` raises
`FileNotFoundError`), and whenever the stage's tool is invoked the output
directory exists in the pre-invocation filesystem.  `link_resources`
performs no filesystem operation before its tool at all — the original
claim including it is refuted by
`c7_link_resources_creates_no_directory`. -/
theorem c7_amended_stage_directory_creation :
    (∀ (fs : Entries) (d : FPath) (fs2 : Entries),
      mkdirsE fs d = .ok fs2 → isDir fs2 d = true)
    ∧ (∀ (fs : Entries) (d : FPath), isDir fs d = true → mkdirsE fs d = .ok fs)
    ∧ (∀ (fs : Entries) (s : String), s ≠ "" →
        isDir fs (strToComps s) = true → osMakedirsStr fs s = .ok fs)
    ∧ (∀ (w : World) (src : List FPath) (sdk out : FPath) (fs : Entries),
        (Javac.javac w src sdk out fs).trace ≠ [] →
          isDir (Javac.javac w src sdk out fs).pre out = true)
    ∧ (∀ (w : World) (cls : List FPath) (sdk out bt : FPath) (fs : Entries),
        (Javac.d8 w cls sdk out bt fs).trace ≠ [] →
          isDir (Javac.d8 w cls sdk out bt fs).pre out = true)
    ∧ (∀ (w : World) (out : FPath) (res : List FPath) (bt : FPath)
        (fs : Entries),
        (ProcRes.compile_resources w out res bt fs).trace ≠ [] →
          isDir (ProcRes.compile_resources w out res bt fs).pre out = true)
    ∧ (∀ (w : World) (ra : FPath) (dexes : List FPath) (out : FPath)
        (fs : Entries),
        (Javac.add_dexes w ra dexes out fs).trace ≠ [] →
          isDir (Javac.add_dexes w ra dexes out fs).pre out.dropLast = true)
    ∧ (∀ (w : World) (apk dex output : String) (fs : Entries),
        (Signer.add_dex w apk dex output fs).trace ≠ [] →
          isDir (Signer.add_dex w apk dex output fs).pre
            (strToComps (osPathSplit output).1) = true)
    ∧ (∀ (w : World) (apk output key cert bt : String) (fs : Entries),
        (Signer.sign w apk output key cert bt fs).trace ≠ [] →
          isDir (Signer.sign w apk output key cert bt fs).pre
            (strToComps (osPathSplit output).1) = true)
    ∧ (∀ (w : World) (files : List FPath) (oa rj sdk mf : FPath)
        (tgt mn : Option String) (bt : FPath) (rn : Option String)
        (fs : Entries),
        (ProcRes.link_resources w files oa rj sdk mf tgt mn bt rn fs).pre
          = fs) := by
  refine ⟨mkdirs_ok_isDir, isDir_mkdirs_ok, ?_, ?_, ?_, ?_, ?_, ?_, ?_, ?_⟩
  · intro fs s hs hd
    unfold osMakedirsStr
    rw [if_neg hs]
    exact isDir_mkdirs_ok fs _ hd
  · intro w src sdk out fs htr
    unfold Javac.javac at htr ⊢
    cases hm : mkdirsE fs out with
    | error e => simp [hm] at htr
    | ok fs1 =>
        simp only [hm]
        exact mkdirs_ok_isDir fs out fs1 hm
  · intro w cls sdk out bt fs htr
    unfold Javac.d8 at htr ⊢
    cases hm : mkdirsE fs out with
    | error e => simp [hm] at htr
    | ok fs1 =>
        simp only [hm]
        exact mkdirs_ok_isDir fs out fs1 hm
  · intro w out res bt fs htr
    unfold ProcRes.compile_resources at htr ⊢
    cases hm : mkdirsE fs out with
    | error e => simp [hm] at htr
    | ok fs1 =>
        simp only [hm]
        exact mkdirs_ok_isDir fs out fs1 hm
  · intro w ra dexes out fs htr
    unfold Javac.add_dexes at htr ⊢
    cases hm : mkdirsE fs out.dropLast with
    | error e => simp [hm] at htr
    | ok fs1 =>
        simp only [hm] at htr ⊢
        cases hc : copyFile fs1 ra out with
        | error e => simp [hc] at htr
        | ok fs2 =>
            simp only [hc]
            have hd1 : isDir fs1 out.dropLast = true :=
              mkdirs_ok_isDir fs out.dropLast fs1 hm
            unfold copyFile at hc
            by_cases hisf : isFile fs1 ra = true
            · rw [if_pos hisf] at hc
              exact setFileAt_keeps_isDir _ fs1 fs2 hc out.dropLast hd1
            · rw [if_neg hisf] at hc
              exact absurd hc (by simp)
  · intro w apk dex output fs htr
    unfold Signer.add_dex at htr ⊢
    cases hm : osMakedirsStr fs (osPathSplit output).1 with
    | error e => simp [hm] at htr
    | ok fs1 =>
        simp only [hm] at htr ⊢
        have hd1 : isDir fs1 (strToComps (osPathSplit output).1) = true := by
          unfold osMakedirsStr at hm
          by_cases hs : (osPathSplit output).1 = ""
          · rw [if_pos hs] at hm
            exact absurd hm (by simp)
          · rw [if_neg hs] at hm
            exact mkdirs_ok_isDir fs _ fs1 hm
        cases hc : copyFile fs1 (strToComps apk) (strToComps output) with
        | error e => simp [hc] at htr
        | ok fs2 =>
            simp only [hc]
            unfold copyFile at hc
            by_cases hisf : isFile fs1 (strToComps apk) = true
            · rw [if_pos hisf] at hc
              exact setFileAt_keeps_isDir _ fs1 fs2 hc _ hd1
            · rw [if_neg hisf] at hc
              exact absurd hc (by simp)
  · intro w apk output key cert bt fs htr
    unfold Signer.sign at htr ⊢
    cases hm : osMakedirsStr fs (osPathSplit output).1 with
    | error e => simp [hm] at htr
    | ok fs1 =>
        simp only [hm] at htr ⊢
        have hd1 : isDir fs1 (strToComps (osPathSplit output).1) = true := by
          unfold osMakedirsStr at hm
          by_cases hs : (osPathSplit output).1 = ""
          · rw [if_pos hs] at hm
            exact absurd hm (by simp)
          · rw [if_neg hs] at hm
            exact mkdirs_ok_isDir fs _ fs1 hm
        cases hc : copyFile fs1 (strToComps apk) (strToComps output) with
        | error e => simp [hc] at htr
        | ok fs2 =>
            simp only [hc]
            unfold copyFile at hc
            by_cases hisf : isFile fs1 (strToComps apk) = true
            · rw [if_pos hisf] at hc
              exact setFileAt_keeps_isDir _ fs1 fs2 hc _ hd1
            · rw [if_neg hisf] at hc
              exact absurd hc (by simp)
  · intro w files oa rj sdk mf tgt mn bt rn fs
    rfl

/-- C7 amended witness: each directory-creating conclusion of the amended
theorem, instantiated at concrete runs — fresh directories are created
(parents included), pre-existing ones are accepted, and each
directory-creating stage sees its output directory existing when its tool
is invoked. -/
theorem c7_amended_witness :
    isDir (.cons "a" (.dir (.cons "b" (.dir .nil) .nil)) .nil) ["a", "b"]
      = true
    ∧ mkdirsE (.cons "d" (.dir .nil) .nil) ["d"]
        = .ok (.cons "d" (.dir .nil) .nil)
    ∧ osMakedirsStr (.cons "d" (.dir .nil) .nil) "d"
        = .ok (.cons "d" (.dir .nil) .nil)
    ∧ isDir (Javac.javac wAllOk [] ["sdk"] ["cls"] Entries.nil).pre ["cls"]
        = true
    ∧ isDir (Javac.d8 wAllOk [] ["sdk"] ["dex"] ["bt"] Entries.nil).pre
        ["dex"] = true
    ∧ isDir (ProcRes.compile_resources wAllOk ["cd"] [] ["bt"]
        Entries.nil).pre ["cd"] = true
    ∧ isDir (Javac.add_dexes wAllOk ["res.apk"] [] ["out", "app.apk"]
        fsJavacFx).pre ["out"] = true
    ∧ isDir (Signer.add_dex wAllOk "app.apk" "classes.dex" "u/unsigned.apk"
        fsApkFx).pre ["u"] = true
    ∧ isDir (Signer.sign wAllOk "u.apk" "o/out.apk" "k.pem" "c.pem" "bt"
        fsUnsignedFx).pre ["o"] = true := by
  have h := c7_amended_stage_directory_creation
  refine ⟨?_, ?_, ?_, ?_, ?_, ?_, ?_, ?_, ?_⟩
  · exact h.1 Entries.nil ["a", "b"]
      (.cons "a" (.dir (.cons "b" (.dir .nil) .nil)) .nil) rfl
  · exact h.2.1 (.cons "d" (.dir .nil) .nil) ["d"] (by decide)
  · exact h.2.2.1 (.cons "d" (.dir .nil) .nil) "d" (by decide) (by decide)
  · exact h.2.2.2.1 wAllOk [] ["sdk"] ["cls"] Entries.nil (by decide)
  · exact h.2.2.2.2.1 wAllOk [] ["sdk"] ["dex"] ["bt"] Entries.nil (by decide)
  · exact h.2.2.2.2.2.1 wAllOk ["cd"] [] ["bt"] Entries.nil (by decide)
  · exact h.2.2.2.2.2.2.1 wAllOk ["res.apk"] [] ["out", "app.apk"] fsJavacFx
      (by decide)
  · exact h.2.2.2.2.2.2.2.1 wAllOk "app.apk" "classes.dex" "u/unsigned.apk"
      fsApkFx (by decide)
  · exact h.2.2.2.2.2.2.2.2.1 wAllOk "u.apk" "o/out.apk" "k.pem" "c.pem" "bt"
      fsUnsignedFx (by decide)

/-- C3: the pipelines short-circuit on the first failure.  In `javac.py`'s
`main`, a non-zero `javac` returncode means the run stops with a raised
error and the trace holds at most the `javac` command (so `d8` and
`add_dexes` are never invoked); a `d8` that fails on every input list
means the run stops with a raised error and the trace holds at most the
`javac` and `d8` commands (so `add_dexes` is never invoked).  In
`process_resources.py`'s `main`, a non-zero `aapt2 compile` returncode
means the run stops with a raised error, the trace holds at most the
compile command (so `aapt2 link` is never invoked) and no `move_rjava`
move is performed. -/
theorem c3_pipelines_short_circuit :
    (∀ (w : World) (cwd : FPath) (o : Javac.Opts) (fs : Entries),
      w.rc (Javac.javacCmd o.files o.androidSdkPlatform o.classDir) ≠ 0 →
        ((Javac.main w cwd o fs).trace = []
          ∨ (Javac.main w cwd o fs).trace
              = [Javac.javacCmd o.files o.androidSdkPlatform o.classDir])
        ∧ (Javac.main w cwd o fs).err.isSome = true)
    ∧ (∀ (w : World) (cwd : FPath) (o : Javac.Opts) (fs : Entries),
      (∀ cls, w.rc (Javac.d8Cmd cls o.androidSdkPlatform o.dexDir
          o.androidSdkBuildTools) ≠ 0) →
        ((Javac.main w cwd o fs).trace = []
          ∨ (Javac.main w cwd o fs).trace
              = [Javac.javacCmd o.files o.androidSdkPlatform o.classDir]
          ∨ ∃ cls, (Javac.main w cwd o fs).trace
              = [Javac.javacCmd o.files o.androidSdkPlatform o.classDir,
                 Javac.d8Cmd cls o.androidSdkPlatform o.dexDir
                   o.androidSdkBuildTools])
        ∧ (Javac.main w cwd o fs).err.isSome = true)
    ∧ (∀ (w : World) (cwd : FPath) (o : ProcRes.Opts) (fs : Entries),
      w.rc (ProcRes.compileCmd o.compileDir o.files o.androidSdkBuildTools)
          ≠ 0 →
        ((ProcRes.main w cwd o fs).trace = []
          ∨ (ProcRes.main w cwd o fs).trace
              = [ProcRes.compileCmd o.compileDir o.files
                  o.androidSdkBuildTools])
        ∧ (ProcRes.main w cwd o fs).err.isSome = true
        ∧ (ProcRes.main w cwd o fs).moved = none) := by
  refine ⟨?_, ?_, ?_⟩
  · intro w cwd o fs hrc
    unfold Javac.main Javac.javac
    cases hm : mkdirsE fs o.classDir with
    | error e => simp [hm]
    | ok fs1 =>
        simp only [hm]
        rw [if_neg hrc]
        simp
  · intro w cwd o fs hrc
    unfold Javac.main Javac.javac
    cases hm : mkdirsE fs o.classDir with
    | error e => simp [hm]
    | ok fs1 =>
        simp only [hm]
        by_cases hj : w.rc (Javac.javacCmd o.files o.androidSdkPlatform
            o.classDir) = 0
        · rw [if_pos hj]
          unfold Javac.d8
          cases hm2 : mkdirsE
              (w.eff (Javac.javacCmd o.files o.androidSdkPlatform o.classDir)
                fs1) o.dexDir with
          | error e => simp [hm2]
          | ok fs2 =>
              simp only [hm2]
              rw [if_neg (hrc _)]
              refine ⟨Or.inr (Or.inr
                ⟨Find.find_files cwd
                  (w.eff (Javac.javacCmd o.files o.androidSdkPlatform
                    o.classDir) fs1) (.single o.classDir) "*.class",
                  ?_⟩), ?_⟩ <;> simp
        · rw [if_neg hj]
          simp
  · intro w cwd o fs hrc
    unfold ProcRes.main ProcRes.compile_resources
    cases hm : mkdirsE fs o.compileDir with
    | error e => simp [hm]
    | ok fs1 =>
        simp only [hm]
        rw [if_neg hrc]
        simp

/-- C3 witness: with every tool failing, `javac.py`'s run stops after the
`javac` command with a raised error, and `process_resources.py`'s run
stops after the `aapt2 compile` command, with no move performed. -/
theorem c3_witness :
    (((Javac.main wAllFail ["w"] javacOptsFx fsJavacFx).trace = []
        ∨ (Javac.main wAllFail ["w"] javacOptsFx fsJavacFx).trace
            = [Javac.javacCmd javacOptsFx.files javacOptsFx.androidSdkPlatform
                javacOptsFx.classDir])
      ∧ (Javac.main wAllFail ["w"] javacOptsFx fsJavacFx).err.isSome = true)
    ∧ (((Javac.main wAllFail ["w"] javacOptsFx fsJavacFx).trace = []
        ∨ (Javac.main wAllFail ["w"] javacOptsFx fsJavacFx).trace
            = [Javac.javacCmd javacOptsFx.files javacOptsFx.androidSdkPlatform
                javacOptsFx.classDir]
        ∨ ∃ cls, (Javac.main wAllFail ["w"] javacOptsFx fsJavacFx).trace
            = [Javac.javacCmd javacOptsFx.files javacOptsFx.androidSdkPlatform
                javacOptsFx.classDir,
               Javac.d8Cmd cls javacOptsFx.androidSdkPlatform
                 javacOptsFx.dexDir javacOptsFx.androidSdkBuildTools])
      ∧ (Javac.main wAllFail ["w"] javacOptsFx fsJavacFx).err.isSome = true)
    ∧ (((ProcRes.main wAllFail ["w"] procResOptsFx fsProcResFx).trace = []
        ∨ (ProcRes.main wAllFail ["w"] procResOptsFx fsProcResFx).trace
            = [ProcRes.compileCmd procResOptsFx.compileDir procResOptsFx.files
                procResOptsFx.androidSdkBuildTools])
      ∧ (ProcRes.main wAllFail ["w"] procResOptsFx fsProcResFx).err.isSome
          = true
      ∧ (ProcRes.main wAllFail ["w"] procResOptsFx fsProcResFx).moved
          = none) := by
  refine ⟨?_, ?_, ?_⟩
  · exact c3_pipelines_short_circuit.1 wAllFail ["w"] javacOptsFx fsJavacFx
      (by decide)
  · exact c3_pipelines_short_circuit.2.1 wAllFail ["w"] javacOptsFx fsJavacFx
      (fun _ => by simp [wAllFail])
  · exact c3_pipelines_short_circuit.2.2 wAllFail ["w"] procResOptsFx
      fsProcResFx (by decide)

/-- C5: each pipeline script invokes its stages in the fixed order and
feeds each stage the files found by recursive glob in the previous
stage's output directory.  In an error-free `javac.py` run the trace is
exactly `javac` into `--class-dir`, then `d8` over exactly the `*.class`
files found recursively in `--class-dir` (in the post-`javac`
filesystem), then `zip` over exactly the `*.dex` files found recursively
in `--dex-dir` (in the post-`d8` filesystem); in an error-free
`process_resources.py` run the trace is exactly `aapt2 compile` into
`--compile-dir` then `aapt2 link` over exactly the `*.flat` files found
recursively in `--compile-dir`. -/
theorem c5_stage_order_and_glob_feeding :
    (∀ (w : World) (cwd : FPath) (o : Javac.Opts) (fs : Entries),
      (Javac.main w cwd o fs).err = none →
        (Javac.main w cwd o fs).trace =
          [Javac.javacCmd o.files o.androidSdkPlatform o.classDir,
           Javac.d8Cmd
             (Find.find_files cwd
               (Javac.javac w o.files o.androidSdkPlatform o.classDir fs).fs
               (.single o.classDir) "*.class")
             o.androidSdkPlatform o.dexDir o.androidSdkBuildTools,
           Javac.addDexesCmd o.output
             (Find.find_files cwd
               (Javac.d8 w
                 (Find.find_files cwd
                   (Javac.javac w o.files o.androidSdkPlatform o.classDir
                     fs).fs
                   (.single o.classDir) "*.class")
                 o.androidSdkPlatform o.dexDir o.androidSdkBuildTools
                 (Javac.javac w o.files o.androidSdkPlatform o.classDir
                   fs).fs).fs
               (.single o.dexDir) "*.dex")])
    ∧ (∀ (w : World) (cwd : FPath) (o : ProcRes.Opts) (fs : Entries),
      (ProcRes.main w cwd o fs).err = none →
        (ProcRes.main w cwd o fs).trace =
          [ProcRes.compileCmd o.compileDir o.files o.androidSdkBuildTools,
           ProcRes.linkCmd
             (Find.find_files cwd
               (ProcRes.compile_resources w o.compileDir o.files
                 o.androidSdkBuildTools fs).fs
               (.single o.compileDir) "*.flat")
             o.output o.rjavaDir o.androidSdkPlatform o.manifest
             o.targetSdkVersion o.minSdkVersion o.renameManifestPackage
             o.androidSdkBuildTools]) := by
  constructor
  · intro w cwd o fs herr
    unfold Javac.main Javac.javac Javac.d8 Javac.add_dexes at herr ⊢
    cases hm : mkdirsE fs o.classDir with
    | error e => simp [hm] at herr
    | ok fs1 =>
        simp only [hm] at herr ⊢
        by_cases hj : w.rc (Javac.javacCmd o.files o.androidSdkPlatform
            o.classDir) = 0
        · rw [if_pos hj] at herr ⊢
          cases hm2 : mkdirsE
              (w.eff (Javac.javacCmd o.files o.androidSdkPlatform o.classDir)
                fs1) o.dexDir with
          | error e => simp [hm2] at herr
          | ok fs2 =>
              simp only [hm2] at herr ⊢
              by_cases hd : w.rc (Javac.d8Cmd
                  (Find.find_files cwd
                    (w.eff (Javac.javacCmd o.files o.androidSdkPlatform
                      o.classDir) fs1)
                    (.single o.classDir) "*.class")
                  o.androidSdkPlatform o.dexDir o.androidSdkBuildTools) = 0
              · rw [if_pos hd] at herr ⊢
                cases hm3 : mkdirsE
                    (w.eff (Javac.d8Cmd
                      (Find.find_files cwd
                        (w.eff (Javac.javacCmd o.files o.androidSdkPlatform
                          o.classDir) fs1)
                        (.single o.classDir) "*.class")
                      o.androidSdkPlatform o.dexDir o.androidSdkBuildTools)
                      fs2) o.output.dropLast with
                | error e => simp [hm3] at herr
                | ok fs3 =>
                    simp only [hm3] at herr ⊢
                    cases hcp : copyFile fs3 o.resourceApk o.output with
                    | error e => simp [hcp] at herr
                    | ok fs4 =>
                        simp only [hcp] at herr ⊢
                        simp
              · rw [if_neg hd] at herr
                simp at herr
        · rw [if_neg hj] at herr
          simp at herr
  · intro w cwd o fs herr
    unfold ProcRes.main ProcRes.compile_resources ProcRes.link_resources
      at herr ⊢
    cases hm : mkdirsE fs o.compileDir with
    | error e => simp [hm] at herr
    | ok fs1 =>
        simp only [hm] at herr ⊢
        by_cases hc : w.rc (ProcRes.compileCmd o.compileDir o.files
            o.androidSdkBuildTools) = 0
        · rw [if_pos hc] at herr ⊢
          by_cases hl : w.rc (ProcRes.linkCmd
              (Find.find_files cwd
                (w.eff (ProcRes.compileCmd o.compileDir o.files
                  o.androidSdkBuildTools) fs1)
                (.single o.compileDir) "*.flat")
              o.output o.rjavaDir o.androidSdkPlatform o.manifest
              o.targetSdkVersion o.minSdkVersion o.renameManifestPackage
              o.androidSdkBuildTools) = 0
          · rw [if_pos hl] at herr ⊢
            cases hmv : ProcRes.move_rjava cwd
                (w.eff (ProcRes.linkCmd
                  (Find.find_files cwd
                    (w.eff (ProcRes.compileCmd o.compileDir o.files
                      o.androidSdkBuildTools) fs1)
                    (.single o.compileDir) "*.flat")
                  o.output o.rjavaDir o.androidSdkPlatform o.manifest
                  o.targetSdkVersion o.minSdkVersion o.renameManifestPackage
                  o.androidSdkBuildTools)
                  (w.eff (ProcRes.compileCmd o.compileDir o.files
                    o.androidSdkBuildTools) fs1))
                o.rjavaDir with
            | error e => simp [hmv] at herr
            | ok mv => simp [hmv]
          · rw [if_neg hl] at herr
            simp at herr
        · rw [if_neg hc] at herr
          simp at herr

/-- C5 witness: at concrete all-success runs the theorem yields the
evaluated three-command `javac.py` trace and two-command
`process_resources.py` trace. -/
theorem c5_witness :
    (Javac.main wAllOk ["w"] javacOptsFx fsJavacFx).trace =
      [Javac.javacCmd [["src", "A.java"]] ["sdk", "android.jar"] ["cls"],
       Javac.d8Cmd [] ["sdk", "android.jar"] ["dex"] ["bt"],
       Javac.addDexesCmd ["out", "app.apk"] []]
    ∧ (ProcRes.main wAllOk ["w"] procResOptsFx fsProcResFx).trace =
      [ProcRes.compileCmd ["cd"] [["res"]] ["bt"],
       ProcRes.linkCmd [] ["o", "res.apk"] ["rj"] ["sdk", "android.jar"]
         ["m.xml"] (some "30") none none ["bt"]] := by
  constructor
  · rw [c5_stage_order_and_glob_feeding.1 wAllOk ["w"] javacOptsFx fsJavacFx
      (by decide)]
    decide
  · rw [c5_stage_order_and_glob_feeding.2 wAllOk ["w"] procResOptsFx
      fsProcResFx (by decide)]
    decide

/-- C6: `find_files(paths, pattern)` yields exactly the entries below the
given paths (recursively) that are regular files and whose names match
the pattern — directories and non-file entries are excluded — each
yielded as an absolute (working-directory-prefixed) path, and the given
paths are processed in the order given (on a well-formed filesystem,
i.e. one without duplicate sibling names). -/
theorem c6_find_files_spec :
    ∀ (cwd : FPath) (fs : Entries) (ps : List FPath) (pat : String),
      entriesWf fs = true →
        (∀ y, y ∈ Find.find_files cwd fs (.many ps) pat ↔
          ∃ p ∈ ps, ∃ rel, rel ≠ [] ∧ y = cwd ++ p ++ rel ∧
            nodeAt (.dir fs) (p ++ rel) = some .file ∧
            ∃ name, rel.getLast? = some name ∧ fnmatch name pat = true)
        ∧ (∀ p, Find.find_files cwd fs (.many (p :: ps)) pat
            = Find.find_files cwd fs (.many [p]) pat
              ++ Find.find_files cwd fs (.many ps) pat)
        ∧ (∀ y ∈ Find.find_files cwd fs (.many ps) pat, ∃ q, y = cwd ++ q) := by
  intro cwd fs ps pat hwf
  refine ⟨mem_find_files cwd fs ps pat hwf, ?_, ?_⟩
  · intro p
    simp [Find.find_files]
  · intro y hy
    unfold Find.find_files at hy
    rw [List.mem_flatMap] at hy
    obtain ⟨p, -, hy⟩ := hy
    rw [List.mem_map] at hy
    obtain ⟨q, -, hq⟩ := hy
    exact ⟨q, hq.symm⟩

/-- C6 witness: on the concrete tree `fsFindFx` (well-formed, shown by
evaluation) the characterization applied at the top-level file `z.class`
confirms its membership with the concrete existential data. -/
theorem c6_witness :
    entriesWf fsFindFx = true
    ∧ ["w", "z.class"] ∈ Find.find_files ["w"] fsFindFx (.many [[]]) "*.class" := by
  refine ⟨by decide, ?_⟩
  refine ((c6_find_files_spec ["w"] fsFindFx [[]] "*.class" (by decide)).1
    ["w", "z.class"]).mpr ⟨[], by decide, ["z.class"], by decide, by decide,
      by decide, "z.class", by decide, by decide⟩

/-- C8: the command sequence a pipeline script issues is a deterministic
function of the command-line options and the filesystem evolution: two
runs with the same options and starting filesystem whose external tools
return the same codes and effects on the commands actually issued produce
the identical command sequence, in the same order (in particular, running
twice under identical conditions is deterministic; nothing is claimed
about the bytes of the produced artifact, and the tools' behaviour on
commands outside the trace is irrelevant). -/
theorem c8_command_trace_deterministic :
    (∀ (w1 w2 : World) (cwd : FPath) (o : Javac.Opts) (fs : Entries),
      (∀ c ∈ (Javac.main w1 cwd o fs).trace,
        w1.rc c = w2.rc c ∧ w1.eff c = w2.eff c) →
      (Javac.main w2 cwd o fs).trace = (Javac.main w1 cwd o fs).trace)
    ∧ (∀ (w1 w2 : World) (cwd : FPath) (o : ProcRes.Opts) (fs : Entries),
      (∀ c ∈ (ProcRes.main w1 cwd o fs).trace,
        w1.rc c = w2.rc c ∧ w1.eff c = w2.eff c) →
      (ProcRes.main w2 cwd o fs).trace = (ProcRes.main w1 cwd o fs).trace) := by
  constructor
  · intro w1 w2 cwd o fs hag
    cases hm : mkdirsE fs o.classDir with
    | error e =>
        unfold Javac.main Javac.javac
        simp [hm]
    | ok fs1 =>
        by_cases hj1 : w1.rc (Javac.javacCmd o.files o.androidSdkPlatform
            o.classDir) = 0
        · cases hm2 : mkdirsE
              (w1.eff (Javac.javacCmd o.files o.androidSdkPlatform o.classDir)
                fs1) o.dexDir with
          | error e =>
              have hmj : (Javac.javacCmd o.files o.androidSdkPlatform
                  o.classDir) ∈ (Javac.main w1 cwd o fs).trace := by
                unfold Javac.main Javac.javac Javac.d8
                simp [hm, hj1, hm2]
              obtain ⟨hrc1, heff1⟩ := hag _ hmj
              unfold Javac.main Javac.javac Javac.d8
              simp only [hm]
              rw [← hrc1, ← heff1]
              simp [hj1, hm2]
          | ok fs2 =>
              by_cases hd1 : w1.rc (Javac.d8Cmd
                  (Find.find_files cwd
                    (w1.eff (Javac.javacCmd o.files o.androidSdkPlatform
                      o.classDir) fs1) (.single o.classDir) "*.class")
                  o.androidSdkPlatform o.dexDir o.androidSdkBuildTools) = 0
              · cases hm3 : mkdirsE
                    (w1.eff (Javac.d8Cmd
                      (Find.find_files cwd
                        (w1.eff (Javac.javacCmd o.files o.androidSdkPlatform
                          o.classDir) fs1) (.single o.classDir) "*.class")
                      o.androidSdkPlatform o.dexDir o.androidSdkBuildTools)
                      fs2) o.output.dropLast with
                | error e =>
                    have hmj : (Javac.javacCmd o.files o.androidSdkPlatform
                        o.classDir) ∈ (Javac.main w1 cwd o fs).trace := by
                      unfold Javac.main Javac.javac Javac.d8 Javac.add_dexes
                      simp [hm, hj1, hm2, hd1, hm3]
                    have hmd : (Javac.d8Cmd
                        (Find.find_files cwd
                          (w1.eff (Javac.javacCmd o.files o.androidSdkPlatform
                            o.classDir) fs1) (.single o.classDir) "*.class")
                        o.androidSdkPlatform o.dexDir o.androidSdkBuildTools)
                        ∈ (Javac.main w1 cwd o fs).trace := by
                      unfold Javac.main Javac.javac Javac.d8 Javac.add_dexes
                      simp [hm, hj1, hm2, hd1, hm3]
                    obtain ⟨hrc1, heff1⟩ := hag _ hmj
                    obtain ⟨hrcd, heffd⟩ := hag _ hmd
                    unfold Javac.main Javac.javac Javac.d8 Javac.add_dexes
                    simp only [hm]
                    rw [← hrc1, ← heff1]
                    simp only [hj1, if_pos, hm2]
                    rw [← hrcd, ← heffd]
                    simp [hd1, hm3]
                | ok fs3 =>
                    cases hcp : copyFile fs3 o.resourceApk o.output with
                    | error e =>
                        have hmj : (Javac.javacCmd o.files
                            o.androidSdkPlatform o.classDir)
                            ∈ (Javac.main w1 cwd o fs).trace := by
                          unfold Javac.main Javac.javac Javac.d8
                            Javac.add_dexes
                          simp [hm, hj1, hm2, hd1, hm3, hcp]
                        have hmd : (Javac.d8Cmd
                            (Find.find_files cwd
                              (w1.eff (Javac.javacCmd o.files
                                o.androidSdkPlatform o.classDir) fs1)
                              (.single o.classDir) "*.class")
                            o.androidSdkPlatform o.dexDir
                            o.androidSdkBuildTools)
                            ∈ (Javac.main w1 cwd o fs).trace := by
                          unfold Javac.main Javac.javac Javac.d8
                            Javac.add_dexes
                          simp [hm, hj1, hm2, hd1, hm3, hcp]
                        obtain ⟨hrc1, heff1⟩ := hag _ hmj
                        obtain ⟨hrcd, heffd⟩ := hag _ hmd
                        unfold Javac.main Javac.javac Javac.d8 Javac.add_dexes
                        simp only [hm]
                        rw [← hrc1, ← heff1]
                        simp only [hj1, if_pos, hm2]
                        rw [← hrcd, ← heffd]
                        simp [hd1, hm3, hcp]
                    | ok fs4 =>
                        have hmj : (Javac.javacCmd o.files
                            o.androidSdkPlatform o.classDir)
                            ∈ (Javac.main w1 cwd o fs).trace := by
                          unfold Javac.main Javac.javac Javac.d8
                            Javac.add_dexes
                          simp [hm, hj1, hm2, hd1, hm3, hcp]
                        have hmd : (Javac.d8Cmd
                            (Find.find_files cwd
                              (w1.eff (Javac.javacCmd o.files
                                o.androidSdkPlatform o.classDir) fs1)
                              (.single o.classDir) "*.class")
                            o.androidSdkPlatform o.dexDir
                            o.androidSdkBuildTools)
                            ∈ (Javac.main w1 cwd o fs).trace := by
                          unfold Javac.main Javac.javac Javac.d8
                            Javac.add_dexes
                          simp [hm, hj1, hm2, hd1, hm3, hcp]
                        obtain ⟨hrc1, heff1⟩ := hag _ hmj
                        obtain ⟨hrcd, heffd⟩ := hag _ hmd
                        unfold Javac.main Javac.javac Javac.d8 Javac.add_dexes
                        simp only [hm]
                        rw [← hrc1, ← heff1]
                        simp only [hj1, if_pos, hm2]
                        rw [← hrcd, ← heffd]
                        simp [hd1, hm3, hcp]
              · have hmj : (Javac.javacCmd o.files o.androidSdkPlatform
                    o.classDir) ∈ (Javac.main w1 cwd o fs).trace := by
                  unfold Javac.main Javac.javac Javac.d8
                  simp [hm, hj1, hm2, hd1]
                have hmd : (Javac.d8Cmd
                    (Find.find_files cwd
                      (w1.eff (Javac.javacCmd o.files o.androidSdkPlatform
                        o.classDir) fs1) (.single o.classDir) "*.class")
                    o.androidSdkPlatform o.dexDir o.androidSdkBuildTools)
                    ∈ (Javac.main w1 cwd o fs).trace := by
                  unfold Javac.main Javac.javac Javac.d8
                  simp [hm, hj1, hm2, hd1]
                obtain ⟨hrc1, heff1⟩ := hag _ hmj
                obtain ⟨hrcd, heffd⟩ := hag _ hmd
                unfold Javac.main Javac.javac Javac.d8
                simp only [hm]
                rw [← hrc1, ← heff1]
                simp only [hj1, if_pos, hm2]
                rw [← hrcd, ← heffd]
                simp [hd1]
        · have hmj : (Javac.javacCmd o.files o.androidSdkPlatform
              o.classDir) ∈ (Javac.main w1 cwd o fs).trace := by
            unfold Javac.main Javac.javac
            simp [hm, hj1]
          obtain ⟨hrc1, heff1⟩ := hag _ hmj
          unfold Javac.main Javac.javac
          simp only [hm]
          rw [← hrc1]
          simp [hj1]
  · intro w1 w2 cwd o fs hag
    cases hm : mkdirsE fs o.compileDir with
    | error e =>
        unfold ProcRes.main ProcRes.compile_resources
        simp [hm]
    | ok fs1 =>
        by_cases hc1 : w1.rc (ProcRes.compileCmd o.compileDir o.files
            o.androidSdkBuildTools) = 0
        · have hmc : (ProcRes.compileCmd o.compileDir o.files
              o.androidSdkBuildTools) ∈ (ProcRes.main w1 cwd o fs).trace := by
            unfold ProcRes.main ProcRes.compile_resources ProcRes.link_resources
            simp only [hm]
            simp [hc1]
            by_cases hl1 : w1.rc (ProcRes.linkCmd
                (Find.find_files cwd
                  (w1.eff (ProcRes.compileCmd o.compileDir o.files
                    o.androidSdkBuildTools) fs1) (.single o.compileDir)
                  "*.flat")
                o.output o.rjavaDir o.androidSdkPlatform o.manifest
                o.targetSdkVersion o.minSdkVersion o.renameManifestPackage
                o.androidSdkBuildTools) = 0
            · simp [hl1]
              split <;> simp
            · simp [hl1]
          obtain ⟨hrc1, heff1⟩ := hag _ hmc
          have hml : (ProcRes.linkCmd
              (Find.find_files cwd
                (w1.eff (ProcRes.compileCmd o.compileDir o.files
                  o.androidSdkBuildTools) fs1) (.single o.compileDir) "*.flat")
              o.output o.rjavaDir o.androidSdkPlatform o.manifest
              o.targetSdkVersion o.minSdkVersion o.renameManifestPackage
              o.androidSdkBuildTools) ∈ (ProcRes.main w1 cwd o fs).trace := by
            unfold ProcRes.main ProcRes.compile_resources ProcRes.link_resources
            simp only [hm]
            simp [hc1]
            by_cases hl1 : w1.rc (ProcRes.linkCmd
                (Find.find_files cwd
                  (w1.eff (ProcRes.compileCmd o.compileDir o.files
                    o.androidSdkBuildTools) fs1) (.single o.compileDir)
                  "*.flat")
                o.output o.rjavaDir o.androidSdkPlatform o.manifest
                o.targetSdkVersion o.minSdkVersion o.renameManifestPackage
                o.androidSdkBuildTools) = 0
            · simp [hl1]
              split <;> simp
            · simp [hl1]
          obtain ⟨hrcl, heffl⟩ := hag _ hml
          unfold ProcRes.main ProcRes.compile_resources ProcRes.link_resources
          simp only [hm]
          rw [← hrc1, ← heff1]
          simp only [hc1, if_pos]
          rw [← hrcl, ← heffl]
        · have hmc : (ProcRes.compileCmd o.compileDir o.files
              o.androidSdkBuildTools) ∈ (ProcRes.main w1 cwd o fs).trace := by
            unfold ProcRes.main ProcRes.compile_resources
            simp [hm, hc1]
          obtain ⟨hrc1, heff1⟩ := hag _ hmc
          unfold ProcRes.main ProcRes.compile_resources
          simp only [hm]
          rw [← hrc1]
          simp [hc1]

/-- C8 witness: two concrete runs under worlds that agree on the commands
actually issued (but disagree elsewhere) produce identical traces, for
both pipeline scripts. -/
theorem c8_witness :
    (Javac.main wOkElsewhere ["w"] javacOptsFx fsJavacFx).trace
      = (Javac.main wAllOk ["w"] javacOptsFx fsJavacFx).trace
    ∧ (ProcRes.main wOkElsewhere ["w"] procResOptsFx fsProcResFx).trace
      = (ProcRes.main wAllOk ["w"] procResOptsFx fsProcResFx).trace := by
  constructor
  · refine c8_command_trace_deterministic.1 wAllOk wOkElsewhere ["w"]
      javacOptsFx fsJavacFx ?_
    intro c hc
    have hc2 : c ∈
        [Javac.javacCmd [["src", "A.java"]] ["sdk", "android.jar"] ["cls"],
         Javac.d8Cmd [] ["sdk", "android.jar"] ["dex"] ["bt"],
         Javac.addDexesCmd ["out", "app.apk"] []] := hc
    fin_cases hc2 <;> exact ⟨by decide, rfl⟩
  · refine c8_command_trace_deterministic.2 wAllOk wOkElsewhere ["w"]
      procResOptsFx fsProcResFx ?_
    intro c hc
    have hc2 : c ∈
        [ProcRes.compileCmd ["cd"] [["res"]] ["bt"],
         ProcRes.linkCmd [] ["o", "res.apk"] ["rj"] ["sdk", "android.jar"]
           ["m.xml"] (some "30") none none ["bt"]] := hc
    fin_cases hc2 <;> exact ⟨by decide, rfl⟩
